import Mathlib

/-!
Verification development for the kuboble-rs rules-and-progression engine.

The definitions below are a shallow embedding of the Rust sources of the
kuboble-core crate:

* core data model (Space, Vector, Piece, Level, Move) from src/lib.rs and
  src/level_run/mod.rs;
* the level-run simulation engine (LevelRunState::attempt_move, LevelRun with
  its bounded move stack, undo_move, restart, cascading attempt_move) from
  src/level_run/mod.rs;
* the restart of the older Board engine from src/lib.rs, kept for comparison
  with LevelRun::restart;
* LevelRating from src/lib.rs and the LevelStatus / LevelProgress /
  WindowVec machinery from src/level_select/mod.rs.

Machine integers (u8, usize) are modelled as Nat; the one place where u8
overflow is observable (LevelRating::new) carries an explicit mod 256.
Operations that can panic in Rust (indexing out of bounds, u8 underflow in
Vector + Vector<i8>, ArrayVec capacity overflow) are modelled as Option
results, with none standing for a panic; pieces are ordinals (Nat), matching
the Piece enum discriminants Green = 0, Orange = 1, Blue = 2.
-/

namespace Kuboble

/-- Per-cell terrain: the Space enum of src/lib.rs. The goal payload is the
piece ordinal. -/
inductive Space where
| void
| wall
| free
| goal (piece : Nat)
deriving DecidableEq, Repr

/-- Grid coordinate: Vector of u8 from src/lib.rs, coordinates as Nat. -/
structure Vec where
  x : Nat
  y : Nat
deriving DecidableEq, Repr

/-- Lexicographic minimum of two coordinates, modelling Ord::min for the
derived Ord on Vector (fields compared in declaration order x then y); on
equal values Ord::min returns the second argument. -/
def vecMin (a b : Vec) : Vec :=
  if a.x < b.x ∨ (a.x = b.x ∧ a.y < b.y) then a else b

/-- Direction of a move, from src/level_run/mod.rs. -/
inductive Direction where
| up
| down
| left
| right
deriving DecidableEq, Repr

/-- Direction negation (the Neg impl). -/
def Direction.neg : Direction → Direction
| .up => .down
| .down => .up
| .left => .right
| .right => .left

/-- Direction::is_horizontal. -/
def Direction.isHorizontal : Direction → Bool
| .left => true
| .right => true
| .up => false
| .down => false

/-- One step from a position in a direction: position + direction.as_vector()
using the Add impl of Vector of u8 with Vector of i8. Stepping above the top
row or left of the left column makes the u8 conversion panic in the source;
this is modelled by none. -/
def stepPos (p : Vec) : Direction → Option Vec
| .up => if p.y = 0 then none else some ⟨p.x, p.y - 1⟩
| .down => some ⟨p.x, p.y + 1⟩
| .left => if p.x = 0 then none else some ⟨p.x - 1, p.y⟩
| .right => some ⟨p.x + 1, p.y⟩

/-- Iterated stepPos: the cell reached after n steps in a direction. -/
def walkN (p : Vec) (d : Direction) : Nat → Option Vec
| 0 => some p
| k + 1 =>
  match stepPos p d with
  | none => none
  | some q => walkN q d k

/-- Offsetting a position by n cells in a direction, total counterpart of
walkN used by PieceSlid::starting_position (top_left + (-direction) * dist);
only the down and right cases are ever reached there, so the truncated
subtraction in the up and left cases is harmless. -/
def Vec.offset (v : Vec) (d : Direction) (n : Nat) : Vec :=
  match d with
  | .up => ⟨v.x, v.y - n⟩
  | .down => ⟨v.x, v.y + n⟩
  | .left => ⟨v.x - n, v.y⟩
  | .right => ⟨v.x + n, v.y⟩

/-- A move: piece ordinal plus direction, from src/level_run/mod.rs. -/
structure Move where
  piece : Nat
  direction : Direction
deriving DecidableEq, Repr

/-- Move negation (same piece, flipped direction). -/
def Move.neg (m : Move) : Move :=
  ⟨m.piece, m.direction.neg⟩

/-- MAX_STRIP_SIZE = MAX_LEVEL_SIZE - 2 from src/levels.rs. -/
def maxStripSize : Nat := 6

/-- An immutable level: grid size, row-major terrain, starting position per
piece, par move count, from src/lib.rs. The current Level also exposes
num_pieces and all_pieces; per the level data of src/levels.rs a level
declares one starting position per piece it uses, so the piece count is the
length of startingPositions and all_pieces iterates ordinals 0, 1, ... in
fixed order. -/
structure Level where
  sizeX : Nat
  sizeY : Nat
  spaces : List Space
  startingPositions : List Vec
  optimalMoves : Nat

/-- Level::get_space: row-major lookup spaces[size.x * y + x]. Out of range
panics in the source (none here). Note the source does not check x against
size.x, so an x overflowing the row wraps into the next row, exactly as the
flat indexing does. -/
def Level.get_space (lv : Level) (p : Vec) : Option Space :=
  lv.spaces.get? (lv.sizeX * p.y + p.x)

/-- The number of pieces of a level (Level::num_pieces). -/
def Level.numPieces (lv : Level) : Nat :=
  lv.startingPositions.length

/-- The live state of one attempt: the level plus current position per piece
(LevelRunState of src/level_run/mod.rs). -/
structure LevelRunState where
  level : Level
  positions : List Vec

/-- Whether any piece occupies the given cell: the occupancy test of the
slide loop, all_pieces().any(|piece| p == piece_position(piece)). -/
def pieceAt (st : LevelRunState) (p : Vec) : Bool :=
  (List.range st.level.numPieces).any fun i => decide (st.positions.get? i = some p)

/-- Fuel bound for the slide loop; any actual slide takes fewer iterations
than this, and running out models the panic / divergence the Rust loop hits
when it leaves the terrain array. -/
def slideFuel (lv : Level) : Nat :=
  lv.spaces.length + lv.sizeX + lv.sizeY + 2

/-- The slide loop of LevelRunState::attempt_move: advance one cell at a time
while the next cell is not a Wall and not occupied by any piece, counting the
distance. Returns the final position and distance; none models a panic
(stepping off the u8 grid or out of the terrain array). -/
def slideLoop (st : LevelRunState) (d : Direction) :
    Nat → Vec → Nat → Option (Vec × Nat)
| 0, _, _ => none
| fuel + 1, pos, dist =>
  match stepPos pos d with
  | none => none
  | some np =>
    match st.level.get_space np with
    | none => none
    | some sp =>
      if sp = Space.wall ∨ pieceAt st np = true then some (pos, dist)
      else slideLoop st d fuel np (dist + 1)

/-- Terrain lookup over a list of cells, modelling the iterator of get_space
calls that builds the captured strip; any out-of-range lookup panics (none). -/
def collectSpaces (lv : Level) : List Vec → Option (List Space)
| [] => some []
| c :: rest =>
  match lv.get_space c with
  | none => none
  | some s =>
    match collectSpaces lv rest with
    | none => none
    | some l => some (s :: l)

/-- The cells of the captured strip, start through end inclusive: for a
horizontal move the x range min..=max at the final y, else the y range at the
final x, as in LevelRunState::attempt_move. -/
def stripCells (d : Direction) (startP pos : Vec) : List Vec :=
  if d.isHorizontal then
    (List.range' (min startP.x pos.x) (max startP.x pos.x - min startP.x pos.x + 1)).map
      fun x => ⟨x, pos.y⟩
  else
    (List.range' (min startP.y pos.y) (max startP.y pos.y - min startP.y pos.y + 1)).map
      fun y => ⟨pos.x, y⟩

/-- The result of one successful slide, from src/level_run/mod.rs: the move,
the top-left corner of the traversed span and its captured terrain. -/
structure PieceSlid where
  muv : Move
  strip_top_left : Vec
  strip_spaces : List Space
deriving DecidableEq, Repr

/-- PieceSlid::slide_distance = len(strip) - 1. -/
def PieceSlid.slide_distance (s : PieceSlid) : Nat :=
  s.strip_spaces.length - 1

/-- PieceSlid::starting_position: the strip corner for Right and Down moves,
otherwise the corner offset by the distance against the move direction. -/
def PieceSlid.starting_position (s : PieceSlid) : Vec :=
  match s.muv.direction with
  | .right => s.strip_top_left
  | .down => s.strip_top_left
  | _ => s.strip_top_left.offset s.muv.direction.neg s.slide_distance

/-- PieceSlid negation: flipped move, same strip. -/
def PieceSlid.neg (s : PieceSlid) : PieceSlid :=
  ⟨s.muv.neg, s.strip_top_left, s.strip_spaces⟩

/-- LevelRunState::attempt_move. Runs the slide loop from the current
position of the piece of the move; on distance 0 it returns no slide and the
unchanged state; otherwise it moves the piece to the final cell and captures
the strip (whose collection into an ArrayVec of capacity MAX_STRIP_SIZE
panics above that size). The outer none models a panic. -/
def LevelRunState.attempt_move (st : LevelRunState) (muv : Move) :
    Option (Option PieceSlid × LevelRunState) :=
  match st.positions.get? muv.piece with
  | none => none
  | some startP =>
    match slideLoop st muv.direction (slideFuel st.level) startP 0 with
    | none => none
    | some (pos, dist) =>
      if dist = 0 then some (none, st)
      else
        match collectSpaces st.level (stripCells muv.direction startP pos) with
        | none => none
        | some strip =>
          if maxStripSize < strip.length then none
          else
            some (some ⟨muv, vecMin startP pos, strip⟩,
              ⟨st.level, st.positions.set muv.piece pos⟩)

/-- LevelRunState::is_winning: every piece sits on its own goal. A position
outside the terrain array panics in the source; modelled as false since no
claim evaluates is_winning there. -/
def LevelRunState.is_winning (st : LevelRunState) : Bool :=
  (List.range st.level.numPieces).all fun i =>
    match st.positions.get? i with
    | none => false
    | some p => decide (st.level.get_space p = some (Space.goal i))

/-- LevelRating::new from src/lib.rs, on u8 with wrapping addition: the value
goal + 3 is reduced mod 256 as the u8 sum is. -/
def LevelRating.new (goal num : Nat) : Nat :=
  if num ≤ goal then 5
  else if num ≤ (goal + 3) % 256 then 5 - (num - goal)
  else 1

/-- Modelled from the spec: LevelRating::is_optimal and
LevelRating::maximum_possible are not under src (src/lib.rs holds an older
LevelRating without them); per the spec a run is optimal iff its rating is
the maximum of 5 stars. -/
def LevelRating.is_optimal (r : Nat) : Bool :=
  decide (r = 5)

/-- Best-ever status of a level, from src/level_select/mod.rs. -/
inductive LevelStatus where
| incomplete
| complete (rating : Nat)
| optimal (moves : List Move)
deriving DecidableEq, Repr

/-- The Ord impl of LevelStatus: Incomplete < Complete < Optimal, Complete
compared by rating, Optimal values all equal. -/
def LevelStatus.cmp : LevelStatus → LevelStatus → Ordering
| .incomplete, .incomplete => .eq
| .incomplete, _ => .lt
| .complete _, .incomplete => .gt
| .complete rl, .complete rr => compare rl rr
| .complete _, .optimal _ => .lt
| .optimal _, .optimal _ => .eq
| .optimal _, _ => .gt

/-- MAX_MOVES of the bounded (not std) build of src/level_run/mod.rs. -/
def maxMoves : Nat := 100

/-- ArrayVec::is_full for the move stack. -/
def stackFull (s : List PieceSlid) : Bool :=
  decide (maxMoves ≤ s.length)

/-- OldActivePiece: the formerly active piece and its (unchanged) position,
reported so its highlight can be cleared. -/
structure OldActivePiece where
  piece : Nat
  position : Vec
deriving DecidableEq, Repr

/-- PieceMoved: a teleport diff entry (restart). -/
structure PieceMoved where
  piece : Nat
  isActive : Bool
  fromPos : Vec
  fromSpace : Space
  toPos : Vec
deriving DecidableEq, Repr

/-- PiecesChanged, the tagged redraw variants of src/level_run/mod.rs. The
ActivePiece variant carries the piece positions (a borrow in the source). -/
inductive PiecesChanged where
| slid (pieceSlid : PieceSlid) (isActive : Bool) (oldActivePiece : Option OldActivePiece)
| moved (pieces : List PieceMoved)
| activePiece (active : Nat) (positions : List Vec)
deriving DecidableEq, Repr

/-- LevelRunChange of src/level_run/mod.rs. -/
structure LevelRunChange where
  piecesChanged : Option PiecesChanged
  numMovesChanged : Option Nat
  winningStatus : Option LevelStatus
  atMaxMoves : Bool
deriving DecidableEq, Repr

/-- The Default value of LevelRunChange. -/
def emptyChange : LevelRunChange :=
  ⟨none, none, none, false⟩

/-- The level-run engine: live state, bounded move history (head of the list
is the most recent entry, the top of the Rust Vec), active piece. The
level_num field of the source is only displayed, never read back. -/
structure LevelRun where
  levelNum : Nat
  state : LevelRunState
  moveStack : List PieceSlid
  activePiece : Nat

/-- Position of a piece; indexing a missing piece panics in the source, and
every use here is guarded by a successful attempt_move on the same state. -/
def posOf (st : LevelRunState) (i : Nat) : Vec :=
  (st.positions.get? i).getD ⟨0, 0⟩

/-- Total terrain lookup used for diff reporting (restart), where the source
indexes the terrain array directly. -/
def spaceAtD (lv : Level) (p : Vec) : Space :=
  (lv.get_space p).getD Space.void

/-- LevelRun::winning_status: after a winning move, Optimal with the move
list (stack bottom first, as move_stack.iter() yields) when the rating is
optimal, else Complete with the rating. -/
def LevelRun.winning_status (r : LevelRun) : Option LevelStatus :=
  if r.state.is_winning then
    some
      (if LevelRating.is_optimal
          (LevelRating.new r.state.level.optimalMoves r.moveStack.length) then
        LevelStatus.optimal (r.moveStack.reverse.map fun s => s.muv)
      else
        LevelStatus.complete
          (LevelRating.new r.state.level.optimalMoves r.moveStack.length))
  else none

/-- The cascade loop of LevelRun::attempt_move over the pieces other than the
active one, in enumeration order: the first piece that can move wins. A
failed attempt leaves the speculative state unchanged (attempt_move returns
the state untouched on distance 0), so each try runs on the same state. -/
def tryOtherPieces (st : LevelRunState) (d : Direction) :
    List Nat → Option (Option (PieceSlid × LevelRunState × Nat))
| [] => some none
| p :: rest =>
  match st.attempt_move ⟨p, d⟩ with
  | none => none
  | some (some slid, st2) => some (some (slid, st2, p))
  | some (none, _) => tryOtherPieces st d rest

/-- The move-finding phase of LevelRun::attempt_move: try the active piece,
then cascade. Returns the slide and post-slide state if any piece moved, the
new active piece, and the old-active-piece report for the cascade case. -/
def findSlide (r : LevelRun) (d : Direction) :
    Option (Option (PieceSlid × LevelRunState) × Nat × Option OldActivePiece) :=
  match r.state.attempt_move ⟨r.activePiece, d⟩ with
  | none => none
  | some (some slid, st2) => some (some (slid, st2), r.activePiece, none)
  | some (none, _) =>
    match tryOtherPieces r.state d
        ((List.range r.state.level.numPieces).filter fun p => p ≠ r.activePiece) with
    | none => none
    | some none => some (none, r.activePiece, none)
    | some (some (slid, st2, p)) =>
      some (some (slid, st2), p, some ⟨r.activePiece, posOf r.state r.activePiece⟩)

/-- LevelRun::attempt_move. The active piece switches to the cascaded piece
as soon as the cascade finds a mover; only afterwards is the capacity of the
move stack checked, and a full stack rejects the slide (state and stack
untouched) with the at_max_moves flag raised. -/
def LevelRun.attempt_move_action (r : LevelRun) (d : Direction) :
    Option (LevelRun × LevelRunChange) :=
  match findSlide r d with
  | none => none
  | some (moved, newActive, oldAp) =>
    let r1 : LevelRun := { r with activePiece := newActive }
    match moved with
    | none => some (r1, { emptyChange with atMaxMoves := stackFull r.moveStack })
    | some (slid, st2) =>
      if stackFull r.moveStack then
        some (r1, { emptyChange with atMaxMoves := true })
      else
        let r2 : LevelRun := { r1 with state := st2, moveStack := slid :: r.moveStack }
        some (r2,
          { piecesChanged := some (.slid slid true oldAp),
            numMovesChanged := some r2.moveStack.length,
            winningStatus := r2.winning_status,
            atMaxMoves := stackFull r2.moveStack })

/-- LevelRun::undo_move: pop the most recent slide and teleport its piece
back to the slide starting cell recovered from the strip; no re-validation. -/
def LevelRun.undo_move (r : LevelRun) : LevelRun × LevelRunChange :=
  match r.moveStack with
  | [] => (r, emptyChange)
  | slid :: rest =>
    let st2 : LevelRunState :=
      ⟨r.state.level, r.state.positions.set slid.muv.piece slid.starting_position⟩
    ({ r with state := st2, moveStack := rest },
      { piecesChanged := some (.slid slid.neg (decide (slid.muv.piece = r.activePiece)) none),
        numMovesChanged := some rest.length,
        winningStatus := none,
        atMaxMoves := false })

/-- LevelRun::restart: a no-op when the move stack is empty, otherwise clear
the stack, reset the state from the level and reset the active piece, with a
full teleport diff. -/
def LevelRun.restart (r : LevelRun) : LevelRun × LevelRunChange :=
  if r.moveStack.isEmpty then (r, emptyChange)
  else
    let st2 : LevelRunState := ⟨r.state.level, r.state.level.startingPositions⟩
    ({ r with state := st2, moveStack := [], activePiece := 0 },
      { piecesChanged := some (.moved ((List.range r.state.level.numPieces).map fun p =>
          { piece := p, isActive := decide (p = 0), fromPos := posOf r.state p,
            fromSpace := spaceAtD r.state.level (posOf r.state p),
            toPos := posOf st2 p })),
        numMovesChanged := some 0,
        winningStatus := none,
        atMaxMoves := false })

/-- The four level-run actions. -/
inductive Action where
| move (d : Direction)
| changeActivePiece
| undoMove
| restart
deriving DecidableEq, Repr

/-- LevelRun::execute_action. ChangeActivePiece cycles the active piece
through the piece ordinals of the level. -/
def LevelRun.execute_action (r : LevelRun) : Action → Option (LevelRun × LevelRunChange)
| .move d => r.attempt_move_action d
| .changeActivePiece =>
  some
    (let np := (r.activePiece + 1) % r.state.level.numPieces
     ({ r with activePiece := np },
      { emptyChange with piecesChanged := some (.activePiece np r.state.positions) }))
| .undoMove => some r.undo_move
| .restart => some r.restart

/-- LevelRun::new: state from the level starting positions, empty move stack,
default (first) active piece. -/
def initialRun (num : Nat) (lv : Level) : LevelRun :=
  ⟨num, ⟨lv, lv.startingPositions⟩, [], 0⟩

/-- Executing a list of actions in order; none if any action panics. -/
def runActions (r : LevelRun) : List Action → Option LevelRun
| [] => some r
| a :: rest =>
  match r.execute_action a with
  | none => none
  | some (r2, _) => runActions r2 rest

/-- The BoardChanged diff shape of src/lib.rs, restricted to the fields the
restart path fills (winning_rating carries the rating number). -/
structure BoardChangedL where
  piecesChanged : Option (List PieceMoved)
  numMovesChanged : Option Nat
  winningRating : Option Nat
  atMaxMoves : Bool
deriving DecidableEq, Repr

/-- The older Board engine of src/lib.rs: board state, move stack of Moves
(head of the list is the top of the stack), active piece; the Piece enum
there has exactly the two variants Green = 0 and Orange = 1 and
Piece::iter() yields both in order. -/
structure BoardL where
  state : LevelRunState
  moveStack : List Move
  activePiece : Nat

/-- Board::restart of src/lib.rs: it resets state, stack and active piece
only when move_stack.len() > 1, and otherwise returns the default (empty)
change with the board untouched. -/
def BoardL.restart (b : BoardL) : BoardL × BoardChangedL :=
  if 1 < b.moveStack.length then
    let st2 : LevelRunState := ⟨b.state.level, b.state.level.startingPositions⟩
    (⟨st2, [], 0⟩,
      { piecesChanged := some ((List.range 2).map fun p =>
          { piece := p, isActive := decide (p = 0), fromPos := posOf b.state p,
            fromSpace := spaceAtD b.state.level (posOf b.state p),
            toPos := posOf st2 p }),
        numMovesChanged := some 0,
        winningRating := none,
        atMaxMoves := false })
  else (b, ⟨none, none, none, false⟩)

/-- NUM_LEVELS from src/levels.rs, the capacity of the status array. -/
def numLevels : Nat := 287

/-- The stored status of a level: entries beyond the array default to
Incomplete (the lazily grown array semantics of LevelProgress). -/
def statusAt (ls : List LevelStatus) (i : Nat) : LevelStatus :=
  (ls.get? i).getD LevelStatus.incomplete

/-- LevelProgress::attempt_status_update of src/level_select/mod.rs: grow the
array with Incomplete defaults so the index exists (ArrayVec::extend past
NUM_LEVELS panics, modelled by none), then overwrite exactly when the new
status is strictly greater in the LevelStatus order, returning whether it
overwrote. -/
def attempt_status_update (ls : List LevelStatus) (idx : Nat) (ns : LevelStatus) :
    Option (List LevelStatus × Bool) :=
  let ls1 := if ls.length ≤ idx then ls ++ List.replicate (idx + 1 - ls.length) .incomplete
    else ls
  if numLevels < ls1.length then none
  else
    match ls1.get? idx with
    | none => none
    | some old =>
      if LevelStatus.cmp ns old = Ordering.gt then some (ls1.set idx ns, true)
      else some (ls1, false)

/-- Window position within the filtered list, from src/level_select/mod.rs. -/
structure WindowPosition where
  top_idx : Nat
  cursor_idx : Nat
deriving DecidableEq, Repr

/-- The WindowChange diff of src/level_select/mod.rs. -/
inductive WindowChange where
| none
| window
| cursorOnly
deriving DecidableEq, Repr

/-- WindowChange::compare: window change dominates cursor change. -/
def WindowChange.comparePos (old np : WindowPosition) : WindowChange :=
  if old.top_idx ≠ np.top_idx then .window
  else if old.cursor_idx ≠ np.cursor_idx then .cursorOnly
  else .none

/-- The scrolling direction of the level selector (the Direction enum of
src/level_select/mod.rs). -/
inductive SelDir where
| previous
| next
deriving DecidableEq, Repr

/-- WindowVec of src/level_select/mod.rs; the const generics C (capacity,
which only bounds the backing ArrayVec) and W (window width) are passed to
each operation as an explicit W parameter, and the backing store is the list
of contents. -/
structure WindowVec (α : Type) where
  vec : List α
  position : WindowPosition

/-- WindowVec::clip_position: clamp the window top into the valid range (with
saturating subtraction) and the cursor into the window and the list. Only
called with a non-empty vec, as in the source (len - 1 would panic there). -/
def clip_position (W : Nat) (len : Nat) (p : WindowPosition) : WindowPosition :=
  let top := min p.top_idx (len - W)
  ⟨top, min (min (max p.cursor_idx top) (top + W - 1)) (len - 1)⟩

/-- WindowVec::set_position: no-op on an empty vec, else clip and store the
new position, reporting what changed (the source only assigns when the change
is not None, which stores the same value). -/
def set_position (W : Nat) (w : WindowVec α) (p : WindowPosition) :
    WindowVec α × WindowChange :=
  if w.vec.isEmpty then (w, .none)
  else
    (if WindowChange.comparePos w.position (clip_position W w.vec.length p) =
        WindowChange.none then w
      else { w with position := clip_position W w.vec.length p },
      WindowChange.comparePos w.position (clip_position W w.vec.length p))

/-- The ideal position targeted by WindowVec::move_cursor before clipping:
cursor stepped by one (saturating at the ends of the filtered list), window
top shifted by exactly enough to keep the cursor inside the window. -/
def move_target (W len : Nat) (pos : WindowPosition) (dir : SelDir) : WindowPosition :=
  let newCursor :=
    match dir with
    | .previous => pos.cursor_idx - 1
    | .next => min (pos.cursor_idx + 1) (len - 1)
  let newTop :=
    if newCursor < pos.top_idx then newCursor
    else if pos.top_idx + W - 1 < newCursor then newCursor - (W - 1)
    else pos.top_idx
  ⟨newTop, newCursor⟩

/-- WindowVec::move_cursor: step the cursor by one within the filtered list,
shifting the window top just enough to keep the cursor visible, then clip via
set_position. -/
def move_cursor (W : Nat) (w : WindowVec α) (dir : SelDir) :
    WindowVec α × WindowChange :=
  if w.vec.isEmpty then (w, .none)
  else set_position W w (move_target W w.vec.length w.position dir)

/-- The position computed by WindowVec::page_window on a non-empty vec: shift
by a full W (saturating below), clip, and when the clip leaves a partial
nonzero shift, move the cursor by the actual shift instead. The subtraction
in the previous-direction cursor adjustment is not saturating in the source;
it stays in range whenever the stored position satisfies the window
invariant. -/
def page_position (W len : Nat) (pos : WindowPosition) (dir : SelDir) : WindowPosition :=
  let raw : WindowPosition :=
    match dir with
    | .previous => ⟨pos.top_idx - W, pos.cursor_idx - W⟩
    | .next => ⟨pos.top_idx + W, pos.cursor_idx + W⟩
  let clipped := clip_position W len raw
  let shift :=
    if pos.top_idx ≤ clipped.top_idx then clipped.top_idx - pos.top_idx
    else pos.top_idx - clipped.top_idx
  if 0 < shift ∧ shift < W then
    { clipped with cursor_idx :=
        match dir with
        | .previous => pos.cursor_idx - shift
        | .next => pos.cursor_idx + shift }
  else clipped

/-- WindowVec::page_window. -/
def page_window (W : Nat) (w : WindowVec α) (dir : SelDir) :
    WindowVec α × WindowChange :=
  if w.vec.isEmpty then (w, .none)
  else
    (if WindowChange.comparePos w.position (page_position W w.vec.length w.position dir) =
        WindowChange.none then w
      else { w with position := page_position W w.vec.length w.position dir },
      WindowChange.comparePos w.position (page_position W w.vec.length w.position dir))

/-- WindowVec::refill: replace the contents and re-establish a position via
set_position (which compares against the previously stored position for the
change report). -/
def refill (W : Nat) (w : WindowVec α) (newVec : List α) (p : WindowPosition) :
    WindowVec α × WindowChange :=
  set_position W { vec := newVec, position := w.position } p

/-- Whether every one of the n cells beyond a position in a direction exists,
is not a Wall, and is occupied by no piece: the clearance the slide loop of
the source actually checks. -/
def slideClearB (st : LevelRunState) (p0 : Vec) (d : Direction) (n : Nat) : Bool :=
  (List.range' 1 n).all fun k =>
    match walkN p0 d k with
    | none => false
    | some c =>
      match st.level.get_space c with
      | none => false
      | some sp => !(decide (sp = Space.wall)) && !(pieceAt st c)

/-- Whether every one of the n cells beyond a position in a direction is Free
or Goal and occupied by no piece: the clearance required by the wording of
the spec (which omits Void). -/
def slideClearSpecB (st : LevelRunState) (p0 : Vec) (d : Direction) (n : Nat) : Bool :=
  (List.range' 1 n).all fun k =>
    match walkN p0 d k with
    | none => false
    | some c =>
      match st.level.get_space c with
      | some Space.free => !(pieceAt st c)
      | some (Space.goal _) => !(pieceAt st c)
      | _ => false

/-- The premise of the preserved board invariant: at least one piece,
pairwise distinct starting positions, each on a Free or Goal (non-Wall,
non-Void) cell. -/
def validStartB (lv : Level) : Bool :=
  decide (1 ≤ lv.numPieces) && decide lv.startingPositions.Nodup &&
    lv.startingPositions.all fun p =>
      match lv.get_space p with
      | some Space.free => true
      | some (Space.goal _) => true
      | _ => false

/-- No two pieces occupy the same cell. -/
def posDistinct (st : LevelRunState) : Prop :=
  ∀ i j p q, i ≠ j → st.positions.get? i = some p → st.positions.get? j = some q → p ≠ q

/-- Every piece rests on an existing cell that is not a Wall. -/
def posSpaceOk (st : LevelRunState) : Prop :=
  ∀ i p, st.positions.get? i = some p →
    ∃ sp, st.level.get_space p = some sp ∧ sp ≠ Space.wall

/-- The board invariant: one position per piece, all distinct, none on a
Wall. -/
def stateInv (st : LevelRunState) : Prop :=
  st.positions.length = st.level.numPieces ∧ posDistinct st ∧ posSpaceOk st

/-- The move stack is consistent with the current positions: each recorded
slide really was performed, in order, starting from the level starting
positions. -/
inductive StackOk (lv : Level) : List PieceSlid → List Vec → Prop
| nil : StackOk lv [] lv.startingPositions
| cons {rest : List PieceSlid} {prev : List Vec} {slid : PieceSlid} {st2 : LevelRunState} :
    StackOk lv rest prev →
    LevelRunState.attempt_move ⟨lv, prev⟩ slid.muv = some (some slid, st2) →
    StackOk lv (slid :: rest) st2.positions

/-- The run invariant carried through executed actions. -/
def runWF (lv : Level) (r : LevelRun) : Prop :=
  r.state.level = lv ∧ StackOk lv r.moveStack r.state.positions ∧
    r.activePiece < lv.numPieces

/-- The window invariant maintained by clip_position (the saturated bound on
the top, the cursor inside the window and the list). -/
def winInv (W len : Nat) (p : WindowPosition) : Prop :=
  p.top_idx ≤ len - W ∧ p.top_idx ≤ p.cursor_idx ∧
    p.cursor_idx ≤ p.top_idx + W - 1 ∧ p.cursor_idx < len

instance instDecWinInv (W len : Nat) (p : WindowPosition) : Decidable (winInv W len p) := by
  unfold winInv
  infer_instance

/-- Level 1 of src/levels.rs: a 5x5 room, Green starting at (1,1) with goal
at (2,3), Orange starting at (2,1) with goal at (1,3), par 5. -/
def lvl1 : Level :=
  { sizeX := 5, sizeY := 5,
    spaces :=
      [.wall, .wall, .wall, .wall, .wall,
       .wall, .free, .free, .free, .wall,
       .wall, .free, .free, .free, .wall,
       .wall, .goal 1, .goal 0, .free, .wall,
       .wall, .wall, .wall, .wall, .wall],
    startingPositions := [⟨1, 1⟩, ⟨2, 1⟩],
    optimalMoves := 5 }

/-- A level with a Void cell reachable by a slide: the top row is
Wall Free Free Void Wall, the second row walls in a parking cell for the
second piece. The data model allows Void anywhere; nothing in the engine
stops a slide from crossing or ending on Void. -/
def voidLevel : Level :=
  { sizeX := 5, sizeY := 2,
    spaces :=
      [.wall, .free, .free, .void, .wall,
       .wall, .free, .wall, .wall, .wall],
    startingPositions := [⟨1, 0⟩, ⟨1, 1⟩],
    optimalMoves := 1 }

/-- The initial state of the void level. -/
def voidState : LevelRunState :=
  ⟨voidLevel, voidLevel.startingPositions⟩

/-- A corridor level for the at-capacity scenario: piece 0 at (1,1) is
blocked to the left by the wall, piece 1 at (3,1) can slide left. -/
def corridorLevel : Level :=
  { sizeX := 5, sizeY := 3,
    spaces :=
      [.wall, .wall, .wall, .wall, .wall,
       .wall, .free, .free, .free, .wall,
       .wall, .wall, .wall, .wall, .wall],
    startingPositions := [⟨1, 1⟩, ⟨3, 1⟩],
    optimalMoves := 1 }

/-- A placeholder slide entry used to fill the move stack to capacity in the
at-capacity scenarios. -/
def dummySlid : PieceSlid :=
  ⟨⟨0, .right⟩, ⟨1, 1⟩, [.free, .free]⟩

/-- A run on the corridor level whose move history is at capacity. -/
def corridorRunFull : LevelRun :=
  ⟨1, ⟨corridorLevel, corridorLevel.startingPositions⟩,
    List.replicate maxMoves dummySlid, 0⟩

/-- The slide distance reported by an attempt_move result: 0 for no slide. -/
def resultDistance (res : Option PieceSlid × LevelRunState) : Nat :=
  match res.1 with
  | none => 0
  | some s => s.slide_distance

/-- Coordinate bookkeeping of an m-step walk in a direction, stated with
additions only. -/
def dirRel (d : Direction) (p q : Vec) (m : Nat) : Prop :=
  match d with
  | .up => q.x = p.x ∧ p.y = q.y + m
  | .down => q.x = p.x ∧ q.y = p.y + m
  | .left => q.y = p.y ∧ p.x = q.x + m
  | .right => q.y = p.y ∧ q.x = p.x + m

/-- The window bounds asserted by the spec: cursor inside the window, top and
cursor inside the filtered list. -/
def windowBounds (W len : Nat) (p : WindowPosition) : Prop :=
  p.top_idx ≤ p.cursor_idx ∧ p.cursor_idx ≤ p.top_idx + W - 1 ∧
    p.top_idx < len ∧ p.cursor_idx < len

/-- The slide found by the cascade in the at-capacity corridor scenario:
piece 1 moves one cell left from (3,1) to (2,1). -/
def c2Slid : PieceSlid :=
  ⟨⟨1, .left⟩, ⟨2, 1⟩, [.free, .free]⟩

/-- The post-slide state the cascade computes in the corridor scenario. -/
def c2State : LevelRunState :=
  ⟨corridorLevel, [⟨1, 1⟩, ⟨2, 1⟩]⟩

/-- The slide of the first piece of level 1 moving down from (1,1) to (1,3). -/
def lvl1DownSlid : PieceSlid :=
  ⟨⟨0, .down⟩, ⟨1, 1⟩, [.free, .free, .goal 1]⟩

/-- A Board of the older src/lib.rs engine with exactly one move in its
history (piece 0 slid down on level 1). -/
def boardOneMove : BoardL :=
  ⟨⟨lvl1, [⟨1, 3⟩, ⟨2, 1⟩]⟩, [⟨0, .down⟩], 0⟩

/-- A LevelRun with exactly the same single move in its history. -/
def runOneMove : LevelRun :=
  ⟨1, ⟨lvl1, [⟨1, 3⟩, ⟨2, 1⟩]⟩, [lvl1DownSlid], 0⟩

theorem get?_replicate (a : α) : ∀ n i, (List.replicate n a).get? i =
    if i < n then some a else none := by
  intro n
  induction n with
  | zero => intro i; simp [List.replicate]
  | succ n ih =>
    intro i
    cases i with
    | zero => simp [List.replicate]
    | succ i => simpa [List.replicate] using ih i

theorem set_get?_self (l : List α) : ∀ (i : Nat) (a : α),
    l.get? i = some a → l.set i a = l := by
  induction l with
  | nil => intro i a h; cases i <;> exact Option.noConfusion h
  | cons x xs ih =>
    intro i a h
    cases i with
    | zero =>
      have hx : x = a := Option.some.inj h
      rw [List.set, hx]
    | succ i =>
      have h2 : xs.get? i = some a := h
      show x :: xs.set i a = x :: xs
      rw [ih i a h2]

/-- LevelStatus never compares strictly greater than itself. -/
theorem statusCmp_self_ne_gt (s : LevelStatus) : LevelStatus.cmp s s ≠ Ordering.gt := by
  cases s with
  | incomplete => simp [LevelStatus.cmp]
  | complete r => simp [LevelStatus.cmp, Nat.compare_eq_gt]
  | optimal ms => simp [LevelStatus.cmp]

/-- C9: in LevelRating::new, the branch computing 5 - (num_moves - goal) is
reachable for u8 inputs only when goal < num_moves <= goal + 3 (the wrapped
u8 sum goal + 3 makes the branch unreachable when the addition overflows), so
num_moves - goal lies in 1..=3 and neither unsigned subtraction underflows. -/
theorem c9_no_underflow (goal num : Nat) (hg : goal < 256) (hn : num < 256)
    (h1 : ¬ num ≤ goal) (h2 : num ≤ (goal + 3) % 256) :
    goal < num ∧ num ≤ goal + 3 ∧ 1 ≤ num - goal ∧ num - goal ≤ 3 ∧
      num - goal ≤ 5 ∧ LevelRating.new goal num = 5 - (num - goal) := by
  unfold LevelRating.new
  rw [if_neg h1, if_pos h2]
  omega

theorem c9_witness : 10 < 256 ∧ 12 < 256 ∧ ¬ (12 : Nat) ≤ 10 ∧ (12 : Nat) ≤ (10 + 3) % 256 ∧
    (10 < 12 ∧ 12 ≤ 10 + 3 ∧ 1 ≤ 12 - 10 ∧ 12 - 10 ≤ 3 ∧ 12 - 10 ≤ 5 ∧
      LevelRating.new 10 12 = 5 - (12 - 10)) :=
  ⟨by decide, by decide, by decide, by decide,
    c9_no_underflow 10 12 (by decide) (by decide) (by decide) (by decide)⟩

/-- C8 counterexample: at par = 253 and moves_taken = 254 the u8 sum
par + 3 wraps, the middle branch is skipped, and the code returns 1 where the
claimed formula 5 - (moves_taken - par) gives 4. -/
theorem c8_counterexample :
    LevelRating.new 253 254 = 1 ∧ 253 < 254 ∧ 254 ≤ 253 + 4 ∧
      5 - (254 - 253) = 4 ∧ LevelRating.new 253 254 ≠ 5 - (254 - 253) := by
  refine ⟨by decide, by decide, by decide, by decide, by decide⟩

/-- C8 amended: the claimed piecewise formula holds whenever the u8 sum
par + 3 does not overflow; when it does (par >= 253) every moves_taken > par
rates 1. The derived facts (non-increasing in moves_taken, range 1..=5,
5 iff moves_taken <= par) hold for all u8 inputs. -/
theorem c8_rating_formula (goal num : Nat) (hg : goal < 256) (hn : num < 256) :
    (num ≤ goal → LevelRating.new goal num = 5) ∧
    (goal < num → num ≤ goal + 4 → goal + 3 ≤ 255 →
      LevelRating.new goal num = 5 - (num - goal)) ∧
    (goal + 4 < num → LevelRating.new goal num = 1) ∧
    (255 < goal + 3 → goal < num → LevelRating.new goal num = 1) ∧
    (∀ m m2, m ≤ m2 → LevelRating.new goal m2 ≤ LevelRating.new goal m) ∧
    1 ≤ LevelRating.new goal num ∧ LevelRating.new goal num ≤ 5 ∧
    (LevelRating.new goal num = 5 ↔ num ≤ goal) := by
  unfold LevelRating.new
  refine ⟨?_, ?_, ?_, ?_, ?_, ?_, ?_, ?_⟩
  · intro h; rw [if_pos h]
  · intro h1 h2 h3
    by_cases h4 : num ≤ goal + 3
    · rw [if_neg (by omega), if_pos (by omega)]
    · rw [if_neg (by omega), if_neg (by omega)]
      omega
  · intro h
    rw [if_neg (by omega)]
    split
    · omega
    · rfl
  · intro h1 h2
    rw [if_neg (by omega), if_neg (by omega)]
  · intro m m2 h
    split <;> split <;> try omega
    all_goals split <;> try omega
    all_goals split <;> omega
  · split
    · omega
    · split <;> omega
  · split
    · omega
    · split <;> omega
  · split
    · omega
    · split <;> omega

theorem c8_witness : 6 < 256 ∧ 8 < 256 ∧
    ((8 ≤ 6 → LevelRating.new 6 8 = 5) ∧
    (6 < 8 → 8 ≤ 6 + 4 → 6 + 3 ≤ 255 → LevelRating.new 6 8 = 5 - (8 - 6)) ∧
    (6 + 4 < 8 → LevelRating.new 6 8 = 1) ∧
    (255 < 6 + 3 → 6 < 8 → LevelRating.new 6 8 = 1) ∧
    (∀ m m2, m ≤ m2 → LevelRating.new 6 m2 ≤ LevelRating.new 6 m) ∧
    1 ≤ LevelRating.new 6 8 ∧ LevelRating.new 6 8 ≤ 5 ∧
    (LevelRating.new 6 8 = 5 ↔ 8 ≤ 6)) :=
  ⟨by decide, by decide, c8_rating_formula 6 8 (by decide) (by decide)⟩

theorem statusAt_of_lt {ls : List LevelStatus} {i : Nat} (h : i < ls.length) :
    ls.get? i = some (statusAt ls i) := by
  rcases List.get?_eq_get h with he
  rw [statusAt, he]
  rfl

/-- C5: attempt_status_update overwrites exactly when the new status is
strictly greater in the LevelStatus order (Incomplete < Complete < Optimal,
Complete compared by rating), returns whether it overwrote, never changes any
other entry, only grows the array, fills gaps with Incomplete, and a second
application of the same or a worse status returns false and changes nothing. -/
theorem c5_progress_monotonic (ls : List LevelStatus) (idx : Nat) (ns : LevelStatus)
    (hidx : idx < numLevels) (hlen : ls.length ≤ numLevels) :
    (∀ r, LevelStatus.cmp .incomplete (.complete r) = .lt) ∧
    (∀ ms, LevelStatus.cmp .incomplete (.optimal ms) = .lt) ∧
    (∀ r ms, LevelStatus.cmp (.complete r) (.optimal ms) = .lt) ∧
    (∀ r r2, LevelStatus.cmp (.complete r) (.complete r2) = compare r r2) ∧
    ∃ ls2 b, attempt_status_update ls idx ns = some (ls2, b) ∧
      (b = true ↔ LevelStatus.cmp ns (statusAt ls idx) = Ordering.gt) ∧
      (∀ j, j ≠ idx → statusAt ls2 j = statusAt ls j) ∧
      (b = true → statusAt ls2 idx = ns) ∧
      (b = false → statusAt ls2 idx = statusAt ls idx) ∧
      ls.length ≤ ls2.length ∧
      (∀ j, ls.length ≤ j → j < ls2.length → j ≠ idx →
        ls2.get? j = some LevelStatus.incomplete) ∧
      (∀ ns2, LevelStatus.cmp ns2 (statusAt ls2 idx) ≠ Ordering.gt →
        attempt_status_update ls2 idx ns2 = some (ls2, false)) ∧
      attempt_status_update ls2 idx ns = some (ls2, false) := by
  refine ⟨fun r => rfl, fun ms => rfl, fun r ms => rfl, fun r r2 => rfl, ?_⟩
  set ls1 : List LevelStatus :=
    if ls.length ≤ idx then ls ++ List.replicate (idx + 1 - ls.length) .incomplete else ls
    with hls1
  have hlen1 : ls1.length = if ls.length ≤ idx then idx + 1 else ls.length := by
    rw [hls1]
    by_cases h : ls.length ≤ idx
    · rw [if_pos h, if_pos h, List.length_append, List.length_replicate]
      omega
    · rw [if_neg h, if_neg h]
  have hidx1 : idx < ls1.length := by
    rw [hlen1]; split <;> omega
  have hcap : ¬ numLevels < ls1.length := by
    rw [hlen1]; split <;> omega
  have hget2 : ∀ j, statusAt ls1 j = statusAt ls j := by
    intro j
    rw [hls1]
    by_cases h : ls.length ≤ idx
    · rw [if_pos h]
      by_cases hj : j < ls.length
      · simp only [statusAt]
        rw [List.get?_append hj]
      · simp only [statusAt]
        rw [List.get?_append_right (by omega), get?_replicate,
          List.get?_eq_none.mpr (by omega)]
        split <;> rfl
    · rw [if_neg h]
  have hget : ls1.get? idx = some (statusAt ls idx) := by
    rw [← hget2 idx]
    exact statusAt_of_lt hidx1
  have key : attempt_status_update ls idx ns =
      (if LevelStatus.cmp ns (statusAt ls idx) = Ordering.gt
        then some (ls1.set idx ns, true) else some (ls1, false)) := by
    unfold attempt_status_update
    rw [← hls1, if_neg hcap, hget]
  have second : ∀ (l2 : List LevelStatus), idx < l2.length → l2.length ≤ numLevels →
      ∀ ns2, LevelStatus.cmp ns2 (statusAt l2 idx) ≠ Ordering.gt →
        attempt_status_update l2 idx ns2 = some (l2, false) := by
    intro l2 h2 h2c ns2 hcmp
    unfold attempt_status_update
    have hpad : (if l2.length ≤ idx then
        l2 ++ List.replicate (idx + 1 - l2.length) LevelStatus.incomplete else l2) = l2 :=
      if_neg (by omega)
    rw [hpad, if_neg (by omega), statusAt_of_lt h2]
    exact if_neg hcmp
  have hset_at : statusAt (ls1.set idx ns) idx = ns := by
    simp only [statusAt]
    rw [List.get?_set_eq, hget]
    rfl
  by_cases hgt : LevelStatus.cmp ns (statusAt ls idx) = Ordering.gt
  · refine ⟨ls1.set idx ns, true, ?_, ?_, ?_, ?_, ?_, ?_, ?_, ?_, ?_⟩
    · rw [key, if_pos hgt]
    · simp [hgt]
    · intro j hj
      simp only [statusAt]
      rw [List.get?_set_ne _ _ (fun he => hj he.symm)]
      exact hget2 j
    · intro _
      exact hset_at
    · intro h; exact absurd h (by simp)
    · rw [List.length_set, hlen1]; split <;> omega
    · intro j hj1 hj2 hj3
      rw [List.length_set, hlen1] at hj2
      rw [List.get?_set_ne _ _ (fun he => hj3 he.symm), hls1]
      by_cases h : ls.length ≤ idx
      · rw [if_pos h] at hj2
        rw [if_pos h, List.get?_append_right (by omega), get?_replicate, if_pos (by omega)]
      · rw [if_neg h] at hj2
        exact absurd hj2 (by omega)
    · intro ns2 hcmp
      exact second _ (by rw [List.length_set]; exact hidx1)
        (by rw [List.length_set, hlen1]; split <;> omega) ns2 hcmp
    · refine second _ (by rw [List.length_set]; exact hidx1)
        (by rw [List.length_set, hlen1]; split <;> omega) ns ?_
      rw [hset_at]
      exact statusCmp_self_ne_gt ns
  · refine ⟨ls1, false, ?_, ?_, ?_, ?_, ?_, ?_, ?_, ?_, ?_⟩
    · rw [key, if_neg hgt]
    · simp [hgt]
    · intro j _; exact hget2 j
    · intro h; exact absurd h (by simp)
    · intro _; exact hget2 idx
    · rw [hlen1]; split <;> omega
    · intro j hj1 hj2 hj3
      rw [hlen1] at hj2
      rw [hls1]
      by_cases h : ls.length ≤ idx
      · rw [if_pos h] at hj2
        rw [if_pos h, List.get?_append_right (by omega), get?_replicate, if_pos (by omega)]
      · rw [if_neg h] at hj2
        exact absurd hj2 (by omega)
    · intro ns2 hcmp
      exact second _ hidx1 (by rw [hlen1]; split <;> omega) ns2 hcmp
    · refine second _ hidx1 (by rw [hlen1]; split <;> omega) ns ?_
      rw [hget2 idx]
      exact hgt

theorem c5_witness : 3 < numLevels ∧ ([] : List LevelStatus).length ≤ numLevels ∧
    ((∀ r, LevelStatus.cmp .incomplete (.complete r) = .lt) ∧
    (∀ ms, LevelStatus.cmp .incomplete (.optimal ms) = .lt) ∧
    (∀ r ms, LevelStatus.cmp (.complete r) (.optimal ms) = .lt) ∧
    (∀ r r2, LevelStatus.cmp (.complete r) (.complete r2) = compare r r2) ∧
    ∃ ls2 b, attempt_status_update [] 3 (.complete 4) = some (ls2, b) ∧
      (b = true ↔ LevelStatus.cmp (.complete 4) (statusAt [] 3) = Ordering.gt) ∧
      (∀ j, j ≠ 3 → statusAt ls2 j = statusAt [] j) ∧
      (b = true → statusAt ls2 3 = .complete 4) ∧
      (b = false → statusAt ls2 3 = statusAt [] 3) ∧
      ([] : List LevelStatus).length ≤ ls2.length ∧
      (∀ j, ([] : List LevelStatus).length ≤ j → j < ls2.length → j ≠ 3 →
        ls2.get? j = some LevelStatus.incomplete) ∧
      (∀ ns2, LevelStatus.cmp ns2 (statusAt ls2 3) ≠ Ordering.gt →
        attempt_status_update ls2 3 ns2 = some (ls2, false)) ∧
      attempt_status_update ls2 3 (.complete 4) = some (ls2, false)) :=
  ⟨by decide, by decide, c5_progress_monotonic [] 3 (.complete 4) (by decide) (by decide)⟩

theorem walkN_succ_back (p : Vec) (d : Direction) :
    ∀ m, walkN p d (m + 1) = (walkN p d m).bind fun q => stepPos q d := by
  intro m
  induction m generalizing p with
  | zero =>
    cases h : stepPos p d with
    | none => simp only [walkN, h, Option.some_bind]
    | some q => simp only [walkN, h, Option.some_bind]
  | succ m ih =>
    cases h : stepPos p d with
    | none => simp only [walkN, h, Option.none_bind]
    | some q =>
      simp only [walkN, h]
      exact ih q

theorem walkN_rel (d : Direction) :
    ∀ m p q, walkN p d m = some q → dirRel d p q m := by
  intro m
  induction m with
  | zero =>
    intro p q h
    have hq : p = q := Option.some.inj h
    subst hq
    cases d <;> simp [dirRel]
  | succ m ih =>
    intro p q h
    unfold walkN at h
    cases hs : stepPos p d with
    | none => rw [hs] at h; exact Option.noConfusion h
    | some r =>
      rw [hs] at h
      have hr := ih r q h
      cases d with
      | up =>
        unfold stepPos at hs
        by_cases hy : p.y = 0
        · rw [if_pos hy] at hs; exact Option.noConfusion hs
        · rw [if_neg hy] at hs
          have hrv : r = ⟨p.x, p.y - 1⟩ := (Option.some.inj hs).symm
          subst hrv
          simp only [dirRel] at hr ⊢
          omega
      | down =>
        have hrv : r = ⟨p.x, p.y + 1⟩ := (Option.some.inj hs).symm
        subst hrv
        simp only [dirRel] at hr ⊢
        omega
      | left =>
        unfold stepPos at hs
        by_cases hx : p.x = 0
        · rw [if_pos hx] at hs; exact Option.noConfusion hs
        · rw [if_neg hx] at hs
          have hrv : r = ⟨p.x - 1, p.y⟩ := (Option.some.inj hs).symm
          subst hrv
          simp only [dirRel] at hr ⊢
          omega
      | right =>
        have hrv : r = ⟨p.x + 1, p.y⟩ := (Option.some.inj hs).symm
        subst hrv
        simp only [dirRel] at hr ⊢
        omega

/-- The full characterization of a clean slide-loop run: the distance
accumulator grows by some m, the final position is the m-step walk, every
intermediate cell exists and is neither Wall nor occupied, and the cell one
step past the final position exists and is Wall or occupied. -/
theorem slideLoop_spec (st : LevelRunState) (d : Direction) :
    ∀ fuel p k pos dist, slideLoop st d fuel p k = some (pos, dist) →
      ∃ m, dist = k + m ∧ walkN p d m = some pos ∧
        (∀ j, 1 ≤ j → j ≤ m → ∃ c sp, walkN p d j = some c ∧
          st.level.get_space c = some sp ∧ sp ≠ Space.wall ∧ pieceAt st c = false) ∧
        (∃ np sp, stepPos pos d = some np ∧ st.level.get_space np = some sp ∧
          (sp = Space.wall ∨ pieceAt st np = true)) := by
  intro fuel
  induction fuel with
  | zero => intro p k pos dist h; exact Option.noConfusion h
  | succ fuel ih =>
    intro p k pos dist h
    cases hs : stepPos p d with
    | none =>
      unfold slideLoop at h
      rw [hs] at h
      exact Option.noConfusion h
    | some np =>
      cases hg : st.level.get_space np with
      | none =>
        simp only [slideLoop, hs, hg] at h
        exact Option.noConfusion h
      | some sp =>
        simp only [slideLoop, hs, hg] at h
        by_cases hb : sp = Space.wall ∨ pieceAt st np = true
        · rw [if_pos hb] at h
          have hpos : p = pos := congrArg Prod.fst (Option.some.inj h)
          have hdist : k = dist := congrArg Prod.snd (Option.some.inj h)
          subst hpos
          subst hdist
          refine ⟨0, by omega, rfl, ?_, ⟨np, sp, hs, hg, hb⟩⟩
          intro j hj1 hj2
          omega
        · rw [if_neg hb] at h
          obtain ⟨m, hm, hwalk, hclear, hblock⟩ := ih np (k + 1) pos dist h
          push_neg at hb
          refine ⟨m + 1, by omega, ?_, ?_, ?_⟩
          · unfold walkN
            rw [hs]
            exact hwalk
          · intro j hj1 hj2
            cases j with
            | zero => omega
            | succ j =>
              cases j with
              | zero =>
                refine ⟨np, sp, ?_, hg, hb.1, ?_⟩
                · unfold walkN
                  rw [hs]
                  rfl
                · cases hpa : pieceAt st np with
                  | false => rfl
                  | true => exact absurd hpa hb.2
              | succ j =>
                obtain ⟨c, sp2, hw, hg2, hsp2, hpa2⟩ := hclear (j + 1) (by omega) (by omega)
                refine ⟨c, sp2, ?_, hg2, hsp2, hpa2⟩
                show walkN p d (j + 2) = some c
                unfold walkN
                rw [hs]
                exact hw
          · exact hblock

theorem collectSpaces_length (lv : Level) :
    ∀ cells strip, collectSpaces lv cells = some strip → strip.length = cells.length := by
  intro cells
  induction cells with
  | nil =>
    intro strip h
    have hnil : ([] : List Space) = strip := Option.some.inj (by exact h)
    exact congrArg List.length hnil.symm
  | cons c rest ih =>
    intro strip h
    unfold collectSpaces at h
    cases hg : lv.get_space c with
    | none => rw [hg] at h; exact Option.noConfusion h
    | some s =>
      rw [hg] at h
      cases hr : collectSpaces lv rest with
      | none => rw [hr] at h; exact Option.noConfusion h
      | some l =>
        rw [hr] at h
        have hsl : s :: l = strip := Option.some.inj h
        rw [← hsl, List.length_cons, ih l hr, List.length_cons]

theorem stripCells_length (d : Direction) (startP pos : Vec) (m : Nat)
    (h : dirRel d startP pos m) : (stripCells d startP pos).length = m + 1 := by
  cases d with
  | up =>
    simp only [dirRel] at h
    simp only [stripCells, Direction.isHorizontal]
    rw [if_neg Bool.false_ne_true, List.length_map, List.length_range']
    omega
  | down =>
    simp only [dirRel] at h
    simp only [stripCells, Direction.isHorizontal]
    rw [if_neg Bool.false_ne_true, List.length_map, List.length_range']
    omega
  | left =>
    simp only [dirRel] at h
    simp only [stripCells, Direction.isHorizontal]
    rw [if_pos trivial, List.length_map, List.length_range']
    omega
  | right =>
    simp only [dirRel] at h
    simp only [stripCells, Direction.isHorizontal]
    rw [if_pos trivial, List.length_map, List.length_range']
    omega

theorem starting_position_eq (muv : Move) (startP pos : Vec) (strip : List Space)
    (m : Nat) (hm : 1 ≤ m) (hrel : dirRel muv.direction startP pos m)
    (hlen : strip.length = m + 1) :
    (PieceSlid.mk muv (vecMin startP pos) strip).starting_position = startP := by
  obtain ⟨pc, d⟩ := muv
  cases d with
  | right =>
    simp only [dirRel] at hrel
    have hmin : vecMin startP pos = startP := by
      unfold vecMin
      rw [if_pos (by omega)]
    simp only [PieceSlid.starting_position, hmin]
  | down =>
    simp only [dirRel] at hrel
    have hmin : vecMin startP pos = startP := by
      unfold vecMin
      rw [if_pos (by omega)]
    simp only [PieceSlid.starting_position, hmin]
  | up =>
    simp only [dirRel] at hrel
    have hmin : vecMin startP pos = pos := by
      unfold vecMin
      rw [if_neg (by omega)]
    simp only [PieceSlid.starting_position, Direction.neg, Vec.offset,
      PieceSlid.slide_distance, hmin, hlen]
    cases startP with
    | mk sx sy =>
      cases pos with
      | mk px py =>
        simp only [Vec.mk.injEq]
        simp only at hrel
        omega
  | left =>
    simp only [dirRel] at hrel
    have hmin : vecMin startP pos = pos := by
      unfold vecMin
      rw [if_neg (by omega)]
    simp only [PieceSlid.starting_position, Direction.neg, Vec.offset,
      PieceSlid.slide_distance, hmin, hlen]
    cases startP with
    | mk sx sy =>
      cases pos with
      | mk px py =>
        simp only [Vec.mk.injEq]
        simp only at hrel
        omega

theorem pieceAt_false_spec {st : LevelRunState} {c : Vec} (h : pieceAt st c = false) :
    ∀ i, i < st.level.numPieces → st.positions.get? i ≠ some c := by
  intro i hi hc
  unfold pieceAt at h
  rw [List.any_eq_false] at h
  have h2 := h i (List.mem_range.mpr hi)
  rw [hc] at h2
  exact h2 (decide_eq_true rfl)

/-- The full characterization of LevelRunState::attempt_move returning
cleanly: the slide loop ran from the current position of the piece, and the
result is either no slide with the untouched state, or the slide with the
captured strip and the updated positions. -/
theorem attempt_move_some {st : LevelRunState} {muv : Move}
    {res : Option PieceSlid × LevelRunState} (h : st.attempt_move muv = some res) :
    ∃ startP pos dist, st.positions.get? muv.piece = some startP ∧
      slideLoop st muv.direction (slideFuel st.level) startP 0 = some (pos, dist) ∧
      ((dist = 0 ∧ res = (none, st)) ∨
        (1 ≤ dist ∧ ∃ strip,
          collectSpaces st.level (stripCells muv.direction startP pos) = some strip ∧
          strip.length ≤ maxStripSize ∧
          res = (some ⟨muv, vecMin startP pos, strip⟩,
            ⟨st.level, st.positions.set muv.piece pos⟩))) := by
  cases hp : st.positions.get? muv.piece with
  | none =>
    unfold LevelRunState.attempt_move at h
    rw [hp] at h
    exact Option.noConfusion h
  | some startP =>
    cases hsl : slideLoop st muv.direction (slideFuel st.level) startP 0 with
    | none =>
      simp only [LevelRunState.attempt_move, hp, hsl] at h
      exact Option.noConfusion h
    | some pr =>
      obtain ⟨pos, dist⟩ := pr
      simp only [LevelRunState.attempt_move, hp, hsl] at h
      refine ⟨startP, pos, dist, rfl, hsl, ?_⟩
      by_cases hd : dist = 0
      · rw [if_pos hd] at h
        exact Or.inl ⟨hd, (Option.some.inj h).symm⟩
      · rw [if_neg hd] at h
        cases hc : collectSpaces st.level (stripCells muv.direction startP pos) with
        | none =>
          rw [hc] at h
          exact Option.noConfusion h
        | some strip =>
          simp only [hc] at h
          by_cases hms : maxStripSize < strip.length
          · rw [if_pos hms] at h
            exact Option.noConfusion h
          · rw [if_neg hms] at h
            exact Or.inr ⟨by omega, strip, rfl, by omega, (Option.some.inj h).symm⟩

/-- C1 counterexample: on voidLevel the slide of piece 0 to the right crosses
and ends on a Void cell: the computed distance is 2, yet only 1 cell beyond
the start is Free or Goal, so 2 exceeds the maximum d the claim describes
(the claimed clearance fails at the computed distance). -/
theorem c1_counterexample :
    voidState.attempt_move ⟨0, .right⟩ =
      some (some ⟨⟨0, .right⟩, ⟨1, 0⟩, [.free, .free, .void]⟩,
        ⟨voidLevel, [⟨3, 0⟩, ⟨1, 1⟩]⟩) ∧
    PieceSlid.slide_distance ⟨⟨0, .right⟩, ⟨1, 0⟩, [.free, .free, .void]⟩ = 2 ∧
    slideClearSpecB voidState ⟨1, 0⟩ .right 2 = false ∧
    slideClearSpecB voidState ⟨1, 0⟩ .right 1 = true ∧
    slideClearB voidState ⟨1, 0⟩ .right 2 = true := by
  exact ⟨rfl, rfl, rfl, rfl, rfl⟩

/-- C1 amended: for every state and move on which attempt_move returns
cleanly, the computed slide distance is the maximum d such that each of the d
cells beyond the piece is not a Wall (Free, Goal, or Void) and occupied by no
piece; when that maximum is 0, attempt_move reports no slide and returns the
state unchanged, every piece position included. -/
theorem c1_slide_distance_max (st : LevelRunState) (muv : Move)
    (res : Option PieceSlid × LevelRunState) (startP : Vec)
    (h : st.attempt_move muv = some res) (hs : st.positions.get? muv.piece = some startP) :
    slideClearB st startP muv.direction (resultDistance res) = true ∧
    (∀ d2, slideClearB st startP muv.direction d2 = true → d2 ≤ resultDistance res) ∧
    (resultDistance res = 0 → res = (none, st)) := by
  obtain ⟨startP2, pos, dist, hp, hsl, hcase⟩ := attempt_move_some h
  have hsp : startP2 = startP := Option.some.inj (hp ▸ hs)
  rw [hsp] at hp hsl hcase
  obtain ⟨m, hm, hwalk, hclear, np, sp, hstep, hgnp, hb⟩ :=
    slideLoop_spec st muv.direction (slideFuel st.level) startP 0 pos dist hsl
  have hmd : dist = m := by omega
  subst hmd
  have hwnp : walkN startP muv.direction (dist + 1) = some np := by
    rw [walkN_succ_back, hwalk, Option.some_bind, hstep]
  have hdist : resultDistance res = dist := by
    rcases hcase with ⟨hd0, hres⟩ | ⟨hd1, strip, hcs, hlen, hres⟩
    · rw [hres]
      simp only [resultDistance]
      omega
    · rw [hres]
      have h1 := collectSpaces_length st.level _ strip hcs
      have h2 := stripCells_length muv.direction startP pos dist
        (walkN_rel muv.direction dist startP pos hwalk)
      simp only [resultDistance, PieceSlid.slide_distance]
      omega
  rw [hdist]
  refine ⟨?_, ?_, ?_⟩
  · rw [slideClearB, List.all_eq_true]
    intro k hk
    rw [List.mem_range'_1] at hk
    obtain ⟨c, sp2, hw, hg2, hsp2, hpa2⟩ := hclear k hk.1 (by omega)
    simp only [hw, hg2]
    simp [hsp2, hpa2]
  · intro d2 hd2
    by_contra hgt
    push_neg at hgt
    rw [slideClearB, List.all_eq_true] at hd2
    have hmem : dist + 1 ∈ List.range' 1 d2 := by
      rw [List.mem_range'_1]
      omega
    have hpred := hd2 (dist + 1) hmem
    simp only [hwnp, hgnp] at hpred
    rcases hb with hb | hb
    · simp [hb] at hpred
    · simp [hb] at hpred
  · intro h0
    rcases hcase with ⟨hd0, hres⟩ | ⟨hd1, _, _, _, _⟩
    · exact hres
    · exact absurd (hdist ▸ h0) (by omega)

theorem c1_witness :
    (initialRun 1 lvl1).state.attempt_move ⟨0, .down⟩ =
      some (some lvl1DownSlid, ⟨lvl1, [⟨1, 3⟩, ⟨2, 1⟩]⟩) ∧
    (initialRun 1 lvl1).state.positions.get? 0 = some ⟨1, 1⟩ ∧
    (slideClearB (initialRun 1 lvl1).state ⟨1, 1⟩ Direction.down
      (resultDistance (some lvl1DownSlid, ⟨lvl1, [⟨1, 3⟩, ⟨2, 1⟩]⟩)) = true ∧
    (∀ d2, slideClearB (initialRun 1 lvl1).state ⟨1, 1⟩ Direction.down d2 = true →
      d2 ≤ resultDistance (some lvl1DownSlid, ⟨lvl1, [⟨1, 3⟩, ⟨2, 1⟩]⟩)) ∧
    (resultDistance (some lvl1DownSlid, ⟨lvl1, [⟨1, 3⟩, ⟨2, 1⟩]⟩) = 0 →
      (some lvl1DownSlid, (⟨lvl1, [⟨1, 3⟩, ⟨2, 1⟩]⟩ : LevelRunState)) =
        (none, (initialRun 1 lvl1).state))) :=
  ⟨rfl, rfl,
    c1_slide_distance_max (initialRun 1 lvl1).state ⟨0, .down⟩
      (some lvl1DownSlid, ⟨lvl1, [⟨1, 3⟩, ⟨2, 1⟩]⟩) ⟨1, 1⟩ rfl rfl⟩

/-- The richer success characterization of attempt_move: the slid move is the
requested one, the final cell is reachable, free of walls and pieces, and the
recorded strip recovers the starting position exactly. -/
theorem attempt_move_success {st : LevelRunState} {muv : Move} {slid : PieceSlid}
    {st2 : LevelRunState} (h : st.attempt_move muv = some (some slid, st2)) :
    slid.muv = muv ∧ st2.level = st.level ∧
    ∃ startP pos dist, st.positions.get? muv.piece = some startP ∧ 1 ≤ dist ∧
      walkN startP muv.direction dist = some pos ∧
      st2.positions = st.positions.set muv.piece pos ∧
      slid.starting_position = startP ∧
      (∃ sp, st.level.get_space pos = some sp ∧ sp ≠ Space.wall) ∧
      pieceAt st pos = false := by
  obtain ⟨startP, pos, dist, hp, hsl, hcase⟩ := attempt_move_some h
  rcases hcase with ⟨hd0, hres⟩ | ⟨hd1, strip, hcs, hlen, hres⟩
  · exact Option.noConfusion (congrArg Prod.fst hres)
  · have hslid : slid = ⟨muv, vecMin startP pos, strip⟩ :=
      Option.some.inj (congrArg Prod.fst hres)
    have hst2 : st2 = ⟨st.level, st.positions.set muv.piece pos⟩ := congrArg Prod.snd hres
    obtain ⟨m, hm, hwalk, hclear, _⟩ :=
      slideLoop_spec st muv.direction (slideFuel st.level) startP 0 pos dist hsl
    have hmd : dist = m := by omega
    rw [← hmd] at hwalk hclear
    have hrel := walkN_rel muv.direction dist startP pos hwalk
    have hstriplen : strip.length = dist + 1 := by
      rw [collectSpaces_length st.level _ strip hcs,
        stripCells_length muv.direction startP pos dist hrel]
    obtain ⟨c, sp, hw, hg, hsp, hpa⟩ := hclear dist hd1 (le_refl dist)
    have hcpos : c = pos := Option.some.inj (hw ▸ hwalk)
    rw [hcpos] at hg hpa
    refine ⟨by rw [hslid], by rw [hst2], startP, pos, dist, hp, hd1, hwalk,
      by rw [hst2], ?_, ⟨sp, hg, hsp⟩, hpa⟩
    rw [hslid]
    exact starting_position_eq muv startP pos strip dist hd1 hrel hstriplen

theorem tryOtherPieces_some {st : LevelRunState} {d : Direction} :
    ∀ (l : List Nat) (slid : PieceSlid) (st2 : LevelRunState) (p : Nat),
      tryOtherPieces st d l = some (some (slid, st2, p)) →
      p ∈ l ∧ st.attempt_move ⟨p, d⟩ = some (some slid, st2) := by
  intro l
  induction l with
  | nil =>
    intro slid st2 p h
    exact Option.noConfusion (Option.some.inj h)
  | cons q rest ih =>
    intro slid st2 p h
    unfold tryOtherPieces at h
    cases ha : st.attempt_move ⟨q, d⟩ with
    | none => rw [ha] at h; exact Option.noConfusion h
    | some pr =>
      obtain ⟨mv, st1⟩ := pr
      cases mv with
      | some slid0 =>
        simp only [ha] at h
        have h1 := Option.some.inj h
        have h2 := Option.some.inj h1
        have hs : slid0 = slid := by
          have := congrArg (fun t => t.1) h2
          exact this
        have hst : st1 = st2 := by
          have := congrArg (fun t => t.2.1) h2
          exact this
        have hpq : q = p := by
          have := congrArg (fun t => t.2.2) h2
          exact this
        subst hs
        subst hst
        subst hpq
        exact ⟨List.mem_cons_self q rest, ha⟩
      | none =>
        simp only [ha] at h
        obtain ⟨hmem, hat⟩ := ih slid st2 p h
        exact ⟨List.mem_cons_of_mem q hmem, hat⟩

/-- The move-finding phase succeeded with a slide: the slide really is an
attempt_move success on the current state by the returned piece. -/
theorem findSlide_success {r : LevelRun} {d : Direction} {slid : PieceSlid}
    {st2 : LevelRunState} {act : Nat} {oldAp : Option OldActivePiece}
    (h : findSlide r d = some (some (slid, st2), act, oldAp)) :
    r.state.attempt_move ⟨act, d⟩ = some (some slid, st2) ∧ slid.muv = ⟨act, d⟩ ∧
      (act = r.activePiece ∨ act < r.state.level.numPieces) := by
  unfold findSlide at h
  cases h1 : r.state.attempt_move ⟨r.activePiece, d⟩ with
  | none => rw [h1] at h; exact Option.noConfusion h
  | some pr =>
    obtain ⟨mv, st1⟩ := pr
    cases mv with
    | some slid0 =>
      simp only [h1] at h
      have h2 := Option.some.inj h
      have hmv : (some (slid0, st1) : Option (PieceSlid × LevelRunState)) =
          some (slid, st2) := congrArg (fun t => t.1) h2
      have hact : r.activePiece = act := congrArg (fun t => t.2.1) h2
      have hsl : slid0 = slid := congrArg (fun t => t.1) (Option.some.inj hmv)
      have hst : st1 = st2 := congrArg (fun t => t.2) (Option.some.inj hmv)
      subst hsl
      subst hst
      rw [← hact]
      obtain ⟨hmuv, _⟩ := attempt_move_success h1
      exact ⟨h1, hmuv, Or.inl rfl⟩
    | none =>
      cases h2 : tryOtherPieces r.state d
          ((List.range r.state.level.numPieces).filter fun p => p ≠ r.activePiece) with
      | none =>
        simp only [h1, h2] at h
        exact Option.noConfusion h
      | some mv2 =>
        cases mv2 with
        | none =>
          simp only [h1, h2] at h
          have h3 := Option.some.inj h
          exact Option.noConfusion (congrArg (fun t => t.1) h3)
        | some trip =>
          obtain ⟨slid0, st20, p⟩ := trip
          simp only [h1, h2] at h
          have h3 := Option.some.inj h
          have hmv : (some (slid0, st20) : Option (PieceSlid × LevelRunState)) =
              some (slid, st2) := congrArg (fun t => t.1) h3
          have hpa : p = act := congrArg (fun t => t.2.1) h3
          have hsl : slid0 = slid := congrArg (fun t => t.1) (Option.some.inj hmv)
          have hst : st20 = st2 := congrArg (fun t => t.2) (Option.some.inj hmv)
          subst hsl
          subst hst
          subst hpa
          obtain ⟨hmem, hat⟩ := tryOtherPieces_some _ slid0 st20 p h2
          obtain ⟨hmuv, _⟩ := attempt_move_success hat
          have hlt : p < r.state.level.numPieces :=
            List.mem_range.mp (List.mem_of_mem_filter hmem)
          exact ⟨hat, hmuv, Or.inr hlt⟩

/-- C2 counterexample: with the move history at capacity on the corridor
level, the active piece 0 cannot slide left but piece 1 can; the Move action
rejects the slide (state, history unchanged, no slide reported, at_max_moves
raised) yet the active piece has changed from 0 to 1, contradicting the
claim that the active piece is unchanged. -/
theorem c2_counterexample :
    corridorRunFull.attempt_move_action .left =
      some (⟨1, ⟨corridorLevel, corridorLevel.startingPositions⟩,
          List.replicate maxMoves dummySlid, 1⟩,
        ⟨none, none, none, true⟩) ∧
    stackFull corridorRunFull.moveStack = true ∧
    corridorRunFull.state.attempt_move ⟨1, .left⟩ = some (some c2Slid, c2State) ∧
    corridorRunFull.activePiece = 0 ∧
    (1 : Nat) ≠ 0 := by
  exact ⟨rfl, rfl, rfl, rfl, by decide⟩

/-- C2 amended: when the move history is at capacity and the move-finding
phase (active piece first, then the cascade) finds a piece that can slide,
the Move action rejects the slide as a whole: piece positions and history are
unchanged and the change reports no slide with at_max_moves raised; the
active piece however becomes the piece that could slide, which is the old
active piece only when that piece itself could slide. -/
theorem c2_reject_at_capacity (r : LevelRun) (d : Direction) (slid : PieceSlid)
    (st2 : LevelRunState) (act : Nat) (oldAp : Option OldActivePiece)
    (hfull : stackFull r.moveStack = true)
    (hf : findSlide r d = some (some (slid, st2), act, oldAp)) :
    r.attempt_move_action d = some ({ r with activePiece := act },
      { emptyChange with atMaxMoves := true }) ∧ act = slid.muv.piece := by
  constructor
  · simp only [LevelRun.attempt_move_action, hf, hfull]
    rw [if_pos trivial]
  · obtain ⟨_, hmuv, _⟩ := findSlide_success hf
    rw [hmuv]

theorem c2_witness : stackFull corridorRunFull.moveStack = true ∧
    findSlide corridorRunFull .left = some (some (c2Slid, c2State), 1, some ⟨0, ⟨1, 1⟩⟩) ∧
    (corridorRunFull.attempt_move_action .left =
      some ({ corridorRunFull with activePiece := 1 },
        { emptyChange with atMaxMoves := true }) ∧ 1 = c2Slid.muv.piece) :=
  ⟨rfl, rfl, c2_reject_at_capacity corridorRunFull .left c2Slid c2State 1
    (some ⟨0, ⟨1, 1⟩⟩) rfl rfl⟩

/-- The Move action succeeded (it reported a changed move count): the slide
found by the move-finding phase was pushed and the state replaced. -/
theorem action_success {r : LevelRun} {d : Direction} {r2 : LevelRun}
    {ch : LevelRunChange} (h : r.attempt_move_action d = some (r2, ch))
    (hn : ch.numMovesChanged ≠ none) :
    ∃ slid st2 act oldAp, findSlide r d = some (some (slid, st2), act, oldAp) ∧
      stackFull r.moveStack = false ∧
      r2 = ⟨r.levelNum, st2, slid :: r.moveStack, act⟩ := by
  unfold LevelRun.attempt_move_action at h
  cases hf : findSlide r d with
  | none => rw [hf] at h; exact Option.noConfusion h
  | some t =>
    obtain ⟨mv, act, oldAp⟩ := t
    cases mv with
    | none =>
      simp only [hf] at h
      have hch : { emptyChange with atMaxMoves := stackFull r.moveStack } = ch :=
        congrArg Prod.snd (Option.some.inj h)
      exact absurd (by rw [← hch]; rfl) hn
    | some pr =>
      obtain ⟨slid, st2⟩ := pr
      simp only [hf] at h
      by_cases hfull : stackFull r.moveStack = true
      · rw [if_pos hfull] at h
        have hch : { emptyChange with atMaxMoves := true } = ch :=
          congrArg Prod.snd (Option.some.inj h)
        exact absurd (by rw [← hch]; rfl) hn
      · rw [if_neg hfull] at h
        have h1 := Option.some.inj h
        have hfull2 : stackFull r.moveStack = false := by
          cases hb : stackFull r.moveStack
          · rfl
          · exact absurd hb hfull
        exact ⟨slid, st2, act, oldAp, rfl, hfull2, (congrArg Prod.fst h1).symm⟩

/-- C3: a successful Move (direct or cascaded) followed immediately by
UndoMove pops the pushed history entry and teleports the recorded piece back
to the starting cell recovered from the strip, restoring every piece position
of the pre-move state; the history is back to its pre-move content. -/
theorem c3_undo_inverts (r : LevelRun) (d : Direction) (r2 : LevelRun)
    (ch : LevelRunChange) (h : r.attempt_move_action d = some (r2, ch))
    (hn : ch.numMovesChanged ≠ none) :
    (r2.undo_move).1.state.positions = r.state.positions ∧
    (r2.undo_move).1.moveStack = r.moveStack ∧
    (r2.undo_move).1.state.level = r.state.level ∧
    (r2.undo_move).1.activePiece = r2.activePiece := by
  obtain ⟨slid, st2, act, oldAp, hf, hfull, hr2⟩ := action_success h hn
  obtain ⟨hat, hmuv, _⟩ := findSlide_success hf
  obtain ⟨hslidmuv, hlevel, startP, pos, dist, hp, hd1, hwalk, hpos2, hstart, _, _⟩ :=
    attempt_move_success hat
  have hpiece : slid.muv.piece = act := by rw [hslidmuv]
  subst hr2
  refine ⟨?_, rfl, ?_, rfl⟩
  · show st2.positions.set slid.muv.piece slid.starting_position = r.state.positions
    rw [hpiece, hstart, hpos2, List.set_set]
    exact set_get?_self _ act startP hp
  · show st2.level = r.state.level
    exact hlevel

theorem c3_witness :
    (initialRun 1 lvl1).attempt_move_action .down =
      some (⟨1, ⟨lvl1, [⟨1, 3⟩, ⟨2, 1⟩]⟩, [lvl1DownSlid], 0⟩,
        ⟨some (.slid lvl1DownSlid true none), some 1, none, false⟩) ∧
    (some 1 : Option Nat) ≠ none ∧
    (((⟨1, ⟨lvl1, [⟨1, 3⟩, ⟨2, 1⟩]⟩, [lvl1DownSlid], 0⟩ : LevelRun).undo_move).1.state.positions =
        (initialRun 1 lvl1).state.positions ∧
      ((⟨1, ⟨lvl1, [⟨1, 3⟩, ⟨2, 1⟩]⟩, [lvl1DownSlid], 0⟩ : LevelRun).undo_move).1.moveStack =
        (initialRun 1 lvl1).moveStack ∧
      ((⟨1, ⟨lvl1, [⟨1, 3⟩, ⟨2, 1⟩]⟩, [lvl1DownSlid], 0⟩ : LevelRun).undo_move).1.state.level =
        (initialRun 1 lvl1).state.level ∧
      ((⟨1, ⟨lvl1, [⟨1, 3⟩, ⟨2, 1⟩]⟩, [lvl1DownSlid], 0⟩ : LevelRun).undo_move).1.activePiece =
        (⟨1, ⟨lvl1, [⟨1, 3⟩, ⟨2, 1⟩]⟩, [lvl1DownSlid], 0⟩ : LevelRun).activePiece) :=
  ⟨rfl, by decide,
    c3_undo_inverts (initialRun 1 lvl1) .down
      ⟨1, ⟨lvl1, [⟨1, 3⟩, ⟨2, 1⟩]⟩, [lvl1DownSlid], 0⟩
      ⟨some (.slid lvl1DownSlid true none), some 1, none, false⟩ rfl (by decide)⟩

theorem get?_set_self {l : List α} {i : Nat} {x a : α} (h : l.get? i = some x) :
    (l.set i a).get? i = some a := by
  rw [List.get?_set_eq, h]
  rfl

/-- A successful attempt_move preserves the board invariant: the moved piece
lands on an existing non-Wall cell occupied by no other piece. -/
theorem attempt_preserves_inv {st : LevelRunState} {muv : Move} {slid : PieceSlid}
    {st2 : LevelRunState} (hinv : stateInv st)
    (h : st.attempt_move muv = some (some slid, st2)) : stateInv st2 := by
  obtain ⟨hlen, hdis, hok⟩ := hinv
  obtain ⟨hmuv, hlevel, startP, pos, dist, hp, hd1, hwalk, hpos2, hstart, hsp, hpa⟩ :=
    attempt_move_success h
  obtain ⟨hplt, _⟩ := List.get?_eq_some.mp hp
  refine ⟨?_, ?_, ?_⟩
  · rw [hpos2, List.length_set, hlevel, hlen]
  · intro i j p q hij hgi hgj
    rw [hpos2] at hgi hgj
    by_cases hi : i = muv.piece
    · subst hi
      rw [get?_set_self hp] at hgi
      have hpq : p = pos := (Option.some.inj hgi).symm
      subst hpq
      rw [List.get?_set_ne _ _ hij] at hgj
      have hjlt : j < st.level.numPieces := by
        obtain ⟨hjl, _⟩ := List.get?_eq_some.mp hgj
        omega
      exact fun he => pieceAt_false_spec hpa j hjlt (he ▸ hgj)
    · rw [List.get?_set_ne _ _ (fun he => hi he.symm)] at hgi
      by_cases hj : j = muv.piece
      · subst hj
        rw [get?_set_self hp] at hgj
        have hq : q = pos := (Option.some.inj hgj).symm
        subst hq
        have hilt : i < st.level.numPieces := by
          obtain ⟨hil, _⟩ := List.get?_eq_some.mp hgi
          omega
        exact fun he => pieceAt_false_spec hpa i hilt (he ▸ hgi)
      · rw [List.get?_set_ne _ _ (fun he => hj he.symm)] at hgj
        exact hdis i j p q hij hgi hgj
  · intro i p hgi
    rw [hpos2] at hgi
    rw [hlevel]
    by_cases hi : i = muv.piece
    · subst hi
      rw [get?_set_self hp] at hgi
      have hpq : p = pos := (Option.some.inj hgi).symm
      subst hpq
      exact hsp
    · rw [List.get?_set_ne _ _ (fun he => hi he.symm)] at hgi
      exact hok i p hgi

/-- The board invariant of the initial positions, from the premise on the
level. -/
theorem stateInv_start {lv : Level} (hv : validStartB lv = true) :
    stateInv ⟨lv, lv.startingPositions⟩ := by
  unfold validStartB at hv
  rw [Bool.and_eq_true, Bool.and_eq_true] at hv
  obtain ⟨⟨hv1, hv2⟩, hv3⟩ := hv
  have hnodup : lv.startingPositions.Nodup := of_decide_eq_true hv2
  refine ⟨rfl, ?_, ?_⟩
  · intro i j p q hij hgi hgj hpq
    subst hpq
    obtain ⟨hil, _⟩ := List.get?_eq_some.mp hgi
    exact hij (List.get?_inj hil hnodup (hgi.trans hgj.symm))
  · intro i p hgi
    have hpmem : p ∈ lv.startingPositions := List.get?_mem hgi
    have hall := (List.all_eq_true.mp hv3) p hpmem
    cases hg : lv.get_space p with
    | none => rw [hg] at hall; exact Bool.noConfusion hall
    | some sp =>
      rw [hg] at hall
      cases sp with
      | void => exact Bool.noConfusion hall
      | wall => exact Bool.noConfusion hall
      | free => exact ⟨Space.free, rfl, by decide⟩
      | goal k => exact ⟨Space.goal k, rfl, by simp⟩

/-- Every state recorded by a consistent move stack satisfies the board
invariant. -/
theorem stateInv_of_stackOk {lv : Level} (hv : validStartB lv = true) :
    ∀ {stack : List PieceSlid} {pos : List Vec}, StackOk lv stack pos →
      stateInv ⟨lv, pos⟩ := by
  intro stack pos h
  induction h with
  | nil => exact stateInv_start hv
  | cons hrest hatt ih =>
    rename_i rest prev slid st2
    have hinv2 := attempt_preserves_inv ih hatt
    have hl2 : st2.level = lv := (attempt_move_success hatt).2.1
    have heta : (⟨lv, st2.positions⟩ : LevelRunState) = st2 := by
      rw [← hl2]
    rw [heta]
    exact hinv2

theorem findSlide_none {r : LevelRun} {d : Direction} {act : Nat}
    {oldAp : Option OldActivePiece} (h : findSlide r d = some (none, act, oldAp)) :
    act = r.activePiece := by
  unfold findSlide at h
  cases h1 : r.state.attempt_move ⟨r.activePiece, d⟩ with
  | none => rw [h1] at h; exact Option.noConfusion h
  | some pr =>
    obtain ⟨mv, st1⟩ := pr
    cases mv with
    | some slid0 =>
      simp only [h1] at h
      exact Option.noConfusion (congrArg (fun t => t.1) (Option.some.inj h))
    | none =>
      cases h2 : tryOtherPieces r.state d
          ((List.range r.state.level.numPieces).filter fun p => p ≠ r.activePiece) with
      | none =>
        simp only [h1, h2] at h
        exact Option.noConfusion h
      | some mv2 =>
        cases mv2 with
        | none =>
          simp only [h1, h2] at h
          exact (congrArg (fun t => t.2.1) (Option.some.inj h)).symm
        | some trip =>
          obtain ⟨slid0, st20, p⟩ := trip
          simp only [h1, h2] at h
          exact Option.noConfusion (congrArg (fun t => t.1) (Option.some.inj h))

/-- One executed action preserves the run invariant. -/
theorem exec_preserves {lv : Level} (hv : validStartB lv = true) {r r2 : LevelRun}
    {a : Action} {ch : LevelRunChange} (hwf : runWF lv r)
    (h : r.execute_action a = some (r2, ch)) : runWF lv r2 := by
  obtain ⟨hlev, hstack, hact⟩ := hwf
  have hn1 : 1 ≤ lv.numPieces := by
    unfold validStartB at hv
    rw [Bool.and_eq_true, Bool.and_eq_true] at hv
    exact of_decide_eq_true hv.1.1
  have hinv : stateInv r.state := by
    have h1 := stateInv_of_stackOk hv hstack
    have heta : r.state = ⟨lv, r.state.positions⟩ := by
      rw [← hlev]
    rw [heta]
    exact h1
  cases a with
  | changeActivePiece =>
    have h1 := Option.some.inj h
    have hr2 : { r with activePiece := (r.activePiece + 1) % r.state.level.numPieces } = r2 :=
      congrArg Prod.fst h1
    rw [← hr2]
    refine ⟨hlev, hstack, ?_⟩
    show (r.activePiece + 1) % r.state.level.numPieces < lv.numPieces
    rw [hlev]
    exact Nat.mod_lt _ (by omega)
  | undoMove =>
    have h1 := Option.some.inj h
    have hr2 : (r.undo_move).1 = r2 := congrArg Prod.fst h1
    rw [← hr2]
    cases hms : r.moveStack with
    | nil =>
      have hu : (r.undo_move).1 = r := by
        simp only [LevelRun.undo_move, hms]
      rw [hu]
      exact ⟨hlev, hstack, hact⟩
    | cons slid rest =>
      rw [hms] at hstack
      generalize hgen : r.state.positions = ps at hstack
      cases hstack with
      | cons hrest hatt =>
        rename_i prev st2w
        obtain ⟨hmuv, hlev2, startP, pos, dist, hp, hd1, hwalk, hpos2, hstart, _, _⟩ :=
          attempt_move_success hatt
        have hp2 : prev.get? slid.muv.piece = some startP := hp
        have hu : (r.undo_move).1 =
            ⟨r.levelNum,
              ⟨r.state.level, r.state.positions.set slid.muv.piece slid.starting_position⟩,
              rest, r.activePiece⟩ := by
          simp only [LevelRun.undo_move, hms]
        rw [hu]
        have hpos3 : st2w.positions = prev.set slid.muv.piece pos := hpos2
        have hposeq : r.state.positions.set slid.muv.piece slid.starting_position = prev := by
          rw [hgen, hstart, hpos3, List.set_set]
          exact set_get?_self prev slid.muv.piece startP hp2
        refine ⟨hlev, ?_, hact⟩
        show StackOk lv rest
          (r.state.positions.set slid.muv.piece slid.starting_position)
        rw [hposeq]
        exact hrest
  | restart =>
    have h1 := Option.some.inj h
    have hr2 : (r.restart).1 = r2 := congrArg Prod.fst h1
    rw [← hr2]
    by_cases hms : r.moveStack.isEmpty = true
    · have he : (r.restart).1 = r := by
        unfold LevelRun.restart
        rw [if_pos hms]
      rw [he]
      exact ⟨hlev, hstack, hact⟩
    · have he : (r.restart).1 =
          ⟨r.levelNum, ⟨r.state.level, r.state.level.startingPositions⟩, [], 0⟩ := by
        unfold LevelRun.restart
        rw [if_neg hms]
      rw [he]
      refine ⟨hlev, ?_, show (0 : Nat) < lv.numPieces by omega⟩
      show StackOk lv [] r.state.level.startingPositions
      rw [hlev]
      exact StackOk.nil
  | move d =>
    have hh : r.attempt_move_action d = some (r2, ch) := h
    unfold LevelRun.attempt_move_action at hh
    cases hf : findSlide r d with
    | none => rw [hf] at hh; exact Option.noConfusion hh
    | some t =>
      obtain ⟨mv, act, oldAp⟩ := t
      cases mv with
      | none =>
        simp only [hf] at hh
        have hr2 : { r with activePiece := act } = r2 :=
          congrArg Prod.fst (Option.some.inj hh)
        rw [← hr2]
        have hacteq := findSlide_none hf
        exact ⟨hlev, hstack, hacteq ▸ hact⟩
      | some pr =>
        obtain ⟨slid, st2⟩ := pr
        simp only [hf] at hh
        obtain ⟨hat, hmuv, hactor⟩ := findSlide_success hf
        have hactlt : act < lv.numPieces := by
          rcases hactor with he | hlt
          · rw [he]; exact hact
          · rw [← hlev]; exact hlt
        by_cases hfull : stackFull r.moveStack = true
        · rw [if_pos hfull] at hh
          have hr2 : { r with activePiece := act } = r2 :=
            congrArg Prod.fst (Option.some.inj hh)
          rw [← hr2]
          exact ⟨hlev, hstack, hactlt⟩
        · rw [if_neg hfull] at hh
          have hr2 : (⟨r.levelNum, st2, slid :: r.moveStack, act⟩ : LevelRun) = r2 :=
            congrArg Prod.fst (Option.some.inj hh)
          rw [← hr2]
          obtain ⟨hmuv2, hlev2, _⟩ := attempt_move_success hat
          refine ⟨by rw [hlev2, hlev], ?_, hactlt⟩
          show StackOk lv (slid :: r.moveStack) st2.positions
          exact StackOk.cons hstack (by
            rw [hmuv]
            have heta : (⟨lv, r.state.positions⟩ : LevelRunState) = r.state := by
              rw [← hlev]
            rw [heta]
            exact hat)

theorem runActions_preserves {lv : Level} (hv : validStartB lv = true) :
    ∀ (acts : List Action) (r r2 : LevelRun), runWF lv r →
      runActions r acts = some r2 → runWF lv r2 := by
  intro acts
  induction acts with
  | nil =>
    intro r r2 hwf h
    have : r = r2 := Option.some.inj h
    exact this ▸ hwf
  | cons a rest ih =>
    intro r r2 hwf h
    unfold runActions at h
    cases he : r.execute_action a with
    | none => rw [he] at h; exact Option.noConfusion h
    | some pr =>
      obtain ⟨rm, ch⟩ := pr
      rw [he] at h
      exact ih rm r2 (exec_preserves hv hwf he) h

/-- C10: starting from the initial state of a level whose starting positions
are pairwise distinct and on non-Wall, non-Void cells, every sequence of
executed actions preserves the invariant that no two pieces occupy the same
cell and no piece rests on a Wall cell. -/
theorem c10_invariant_preserved (lv : Level) (n : Nat) (acts : List Action)
    (r : LevelRun) (hv : validStartB lv = true)
    (h : runActions (initialRun n lv) acts = some r) :
    posDistinct r.state ∧ posSpaceOk r.state := by
  have hn1 : 1 ≤ lv.numPieces := by
    unfold validStartB at hv
    rw [Bool.and_eq_true, Bool.and_eq_true] at hv
    exact of_decide_eq_true hv.1.1
  have hwf0 : runWF lv (initialRun n lv) :=
    ⟨rfl, StackOk.nil, show (0 : Nat) < lv.numPieces by omega⟩
  obtain ⟨hlev, hstack, _⟩ := runActions_preserves hv acts (initialRun n lv) r hwf0 h
  have hinv := stateInv_of_stackOk hv hstack
  have heta : r.state = ⟨lv, r.state.positions⟩ := by
    rw [← hlev]
  rw [heta]
  exact ⟨hinv.2.1, hinv.2.2⟩

theorem c10_witness : validStartB lvl1 = true ∧
    runActions (initialRun 1 lvl1)
      [.move .down, .undoMove, .move .right, .restart, .changeActivePiece] =
      some ⟨1, ⟨lvl1, [⟨1, 1⟩, ⟨2, 1⟩]⟩, [], 1⟩ ∧
    (posDistinct (⟨1, ⟨lvl1, [⟨1, 1⟩, ⟨2, 1⟩]⟩, [], 1⟩ : LevelRun).state ∧
      posSpaceOk (⟨1, ⟨lvl1, [⟨1, 1⟩, ⟨2, 1⟩]⟩, [], 1⟩ : LevelRun).state) :=
  ⟨by decide, rfl,
    c10_invariant_preserved lvl1 1
      [.move .down, .undoMove, .move .right, .restart, .changeActivePiece]
      ⟨1, ⟨lvl1, [⟨1, 1⟩, ⟨2, 1⟩]⟩, [], 1⟩ (by decide) rfl⟩

theorem isEmpty_false_of_ne {l : List α} (h : l ≠ []) : l.isEmpty = false := by
  cases l with
  | nil => exact absurd rfl h
  | cons x xs => rfl

theorem comparePos_eq_none {a b : WindowPosition}
    (h : WindowChange.comparePos a b = WindowChange.none) : a = b := by
  unfold WindowChange.comparePos at h
  by_cases h1 : a.top_idx ≠ b.top_idx
  · rw [if_pos h1] at h
    exact absurd h (by simp)
  · rw [if_neg h1] at h
    by_cases h2 : a.cursor_idx ≠ b.cursor_idx
    · rw [if_pos h2] at h
      exact absurd h (by simp)
    · have e1 : a.top_idx = b.top_idx := not_not.mp h1
      have e2 : a.cursor_idx = b.cursor_idx := not_not.mp h2
      cases a
      cases b
      simp only [WindowPosition.mk.injEq]
      exact ⟨e1, e2⟩

theorem winInv_clip (W len : Nat) (p : WindowPosition) (hW : 1 ≤ W) (hlen : 1 ≤ len) :
    winInv W len (clip_position W len p) := by
  simp only [winInv, clip_position]
  omega

theorem windowBounds_of_winInv {W len : Nat} {p : WindowPosition}
    (h : winInv W len p) : windowBounds W len p := by
  simp only [winInv] at h
  simp only [windowBounds]
  omega

theorem set_position_position {α : Type} (W : Nat) (w : WindowVec α) (p : WindowPosition)
    (hv : w.vec ≠ []) :
    (set_position W w p).1.position = clip_position W w.vec.length p := by
  unfold set_position
  rw [if_neg (by rw [isEmpty_false_of_ne hv]; exact Bool.false_ne_true)]
  by_cases hch : WindowChange.comparePos w.position (clip_position W w.vec.length p) =
      WindowChange.none
  · rw [if_pos hch]
    exact comparePos_eq_none hch
  · rw [if_neg hch]

theorem move_cursor_position {α : Type} (W : Nat) (w : WindowVec α) (dir : SelDir)
    (hv : w.vec ≠ []) :
    (move_cursor W w dir).1.position =
      clip_position W w.vec.length (move_target W w.vec.length w.position dir) := by
  unfold move_cursor
  rw [if_neg (by rw [isEmpty_false_of_ne hv]; exact Bool.false_ne_true)]
  exact set_position_position W w _ hv

theorem refill_position {α : Type} (W : Nat) (w : WindowVec α) (nv : List α)
    (p : WindowPosition) (hnv : nv ≠ []) :
    (refill W w nv p).1.position = clip_position W nv.length p := by
  unfold refill
  exact set_position_position W ⟨nv, w.position⟩ p hnv

theorem page_window_position {α : Type} (W : Nat) (w : WindowVec α) (dir : SelDir)
    (hv : w.vec ≠ []) :
    (page_window W w dir).1.position = page_position W w.vec.length w.position dir := by
  unfold page_window
  rw [if_neg (by rw [isEmpty_false_of_ne hv]; exact Bool.false_ne_true)]
  by_cases hch : WindowChange.comparePos w.position
      (page_position W w.vec.length w.position dir) = WindowChange.none
  · rw [if_pos hch]
    exact comparePos_eq_none hch
  · rw [if_neg hch]

theorem page_position_winInv (W len : Nat) (pos : WindowPosition) (dir : SelDir)
    (hW : 1 ≤ W) (hlen : 1 ≤ len) (hinv : winInv W len pos) :
    winInv W len (page_position W len pos dir) := by
  simp only [winInv] at hinv ⊢
  cases dir <;>
  · simp only [page_position, clip_position]
    split_ifs <;> (try dsimp only) <;> omega

/-- C6: on a non-empty filtered list (with a positive window width, and for
page_window a stored position the structure itself maintains), every selector
operation leaves the window position with top <= cursor <= top + W - 1 and
top and cursor inside the filtered list. -/
theorem c6_window_invariant {α : Type} (W : Nat) (w : WindowVec α) (p : WindowPosition)
    (dir : SelDir) (nv : List α) (hW : 1 ≤ W) (hv : w.vec ≠ [])
    (hinv : winInv W w.vec.length w.position) (hnv : nv ≠ []) :
    windowBounds W w.vec.length (set_position W w p).1.position ∧
    windowBounds W w.vec.length (move_cursor W w dir).1.position ∧
    windowBounds W w.vec.length (page_window W w dir).1.position ∧
    windowBounds W nv.length (refill W w nv p).1.position := by
  have hlen : 1 ≤ w.vec.length := List.length_pos.mpr hv
  have hlen2 : 1 ≤ nv.length := List.length_pos.mpr hnv
  refine ⟨?_, ?_, ?_, ?_⟩
  · rw [set_position_position W w p hv]
    exact windowBounds_of_winInv (winInv_clip W _ p hW hlen)
  · rw [move_cursor_position W w dir hv]
    exact windowBounds_of_winInv (winInv_clip W _ _ hW hlen)
  · rw [page_window_position W w dir hv]
    exact windowBounds_of_winInv (page_position_winInv W _ _ dir hW hlen hinv)
  · rw [refill_position W w nv p hnv]
    exact windowBounds_of_winInv (winInv_clip W _ p hW hlen2)

/-- A window over eight entries with a valid stored position, used to
instantiate the window theorems. -/
def c6Window : WindowVec Nat :=
  ⟨[1, 2, 3, 4, 5, 6, 7, 8], ⟨2, 4⟩⟩

theorem c6_witness : 1 ≤ 5 ∧ c6Window.vec ≠ [] ∧
    winInv 5 c6Window.vec.length c6Window.position ∧ ([9, 10, 11] : List Nat) ≠ [] ∧
    (windowBounds 5 c6Window.vec.length (set_position 5 c6Window ⟨1, 18⟩).1.position ∧
    windowBounds 5 c6Window.vec.length (move_cursor 5 c6Window .next).1.position ∧
    windowBounds 5 c6Window.vec.length (page_window 5 c6Window .next).1.position ∧
    windowBounds 5 ([9, 10, 11] : List Nat).length
      (refill 5 c6Window [9, 10, 11] ⟨1, 18⟩).1.position) :=
  ⟨by decide, by decide, by decide, by decide,
    c6_window_invariant 5 c6Window ⟨1, 18⟩ .next [9, 10, 11] (by decide) (by decide)
      (by decide) (by decide)⟩

/-- C7 counterexample: on a three-entry list with window width 5 and stored
position top 0 cursor 1, paging forward clips the window shift to 0 (below
W = 5), yet the cursor moves from 1 to 2 instead of moving by the actual
shift amount 0, so the cursor offset within the window is not preserved. -/
theorem c7_counterexample :
    winInv 5 ([10, 20, 30] : List Nat).length (⟨0, 1⟩ : WindowPosition) ∧
    (page_window 5 (⟨[10, 20, 30], ⟨0, 1⟩⟩ : WindowVec Nat) .next).1.position.top_idx = 0 ∧
    (page_window 5 (⟨[10, 20, 30], ⟨0, 1⟩⟩ : WindowVec Nat) .next).1.position.cursor_idx = 2 ∧
    (0 : Nat) < 5 ∧ (2 : Nat) ≠ 1 + 0 := by
  refine ⟨by decide, by decide, by decide, by decide, by decide⟩

/-- C7 amended: page_window shifts the window top by a full W clipped to the
valid range, and whenever the clipped shift is nonzero but below W the cursor
moves by exactly the actual shift, preserving its offset in the window; when
the clipped shift is zero the cursor may still be clamped within the window
(see the counterexample). -/
theorem c7_page_shift {α : Type} (W : Nat) (w : WindowVec α) (hW : 1 ≤ W)
    (hv : w.vec ≠ []) (hinv : winInv W w.vec.length w.position) :
    ((page_window W w .next).1.position.top_idx =
      min (w.position.top_idx + W) (w.vec.length - W)) ∧
    ((page_window W w .previous).1.position.top_idx = w.position.top_idx - W) ∧
    (∀ s, s = (page_window W w .next).1.position.top_idx - w.position.top_idx →
      0 < s → s < W →
      (page_window W w .next).1.position.cursor_idx = w.position.cursor_idx + s ∧
      (page_window W w .next).1.position.cursor_idx -
          (page_window W w .next).1.position.top_idx =
        w.position.cursor_idx - w.position.top_idx) ∧
    (∀ s, s = w.position.top_idx - (page_window W w .previous).1.position.top_idx →
      0 < s → s < W →
      (page_window W w .previous).1.position.cursor_idx = w.position.cursor_idx - s ∧
      (page_window W w .previous).1.position.cursor_idx -
          (page_window W w .previous).1.position.top_idx =
        w.position.cursor_idx - w.position.top_idx) := by
  have hlen : 1 ≤ w.vec.length := List.length_pos.mpr hv
  rw [page_window_position W w .next hv, page_window_position W w .previous hv]
  simp only [winInv] at hinv
  refine ⟨?_, ?_, ?_, ?_⟩
  · simp only [page_position, clip_position]
    split_ifs <;> (try dsimp only) <;> omega
  · simp only [page_position, clip_position]
    split_ifs <;> (try dsimp only) <;> omega
  · intro s hs h1 h2
    simp only [page_position, clip_position] at hs ⊢
    split_ifs at hs ⊢ <;> (try dsimp only at hs ⊢) <;> constructor <;> omega
  · intro s hs h1 h2
    simp only [page_position, clip_position] at hs ⊢
    split_ifs at hs ⊢ <;> (try dsimp only at hs ⊢) <;> constructor <;> omega

theorem c7_witness : 1 ≤ 3 ∧ c6Window.vec ≠ [] ∧
    winInv 3 c6Window.vec.length c6Window.position ∧
    (((page_window 3 c6Window .next).1.position.top_idx =
      min (c6Window.position.top_idx + 3) (c6Window.vec.length - 3)) ∧
    ((page_window 3 c6Window .previous).1.position.top_idx =
      c6Window.position.top_idx - 3) ∧
    (∀ s, s = (page_window 3 c6Window .next).1.position.top_idx -
        c6Window.position.top_idx → 0 < s → s < 3 →
      (page_window 3 c6Window .next).1.position.cursor_idx =
        c6Window.position.cursor_idx + s ∧
      (page_window 3 c6Window .next).1.position.cursor_idx -
          (page_window 3 c6Window .next).1.position.top_idx =
        c6Window.position.cursor_idx - c6Window.position.top_idx) ∧
    (∀ s, s = c6Window.position.top_idx -
        (page_window 3 c6Window .previous).1.position.top_idx → 0 < s → s < 3 →
      (page_window 3 c6Window .previous).1.position.cursor_idx =
        c6Window.position.cursor_idx - s ∧
      (page_window 3 c6Window .previous).1.position.cursor_idx -
          (page_window 3 c6Window .previous).1.position.top_idx =
        c6Window.position.cursor_idx - c6Window.position.top_idx)) :=
  ⟨by decide, by decide, by decide,
    c7_page_shift 3 c6Window (by decide) (by decide) (by decide)⟩

/-- C4: the older Board::restart of src/lib.rs only acts when more than one
move was made: with exactly one move in the history it leaves pieces, history
and active piece untouched and reports nothing, although a move was made and
the pieces are away from their starting cells; LevelRun::restart of
src/level_run/mod.rs resets the same one-move situation completely, as the
spec describes. -/
theorem c4_restart_divergence :
    boardOneMove.moveStack.length = 1 ∧
    (BoardL.restart boardOneMove).1.state.positions = [⟨1, 3⟩, ⟨2, 1⟩] ∧
    (BoardL.restart boardOneMove).1.moveStack = boardOneMove.moveStack ∧
    (BoardL.restart boardOneMove).2 = ⟨none, none, none, false⟩ ∧
    boardOneMove.state.positions ≠ lvl1.startingPositions ∧
    runOneMove.moveStack.length = 1 ∧
    (LevelRun.restart runOneMove).1.state.positions = lvl1.startingPositions ∧
    (LevelRun.restart runOneMove).1.moveStack = [] ∧
    (LevelRun.restart runOneMove).1.activePiece = 0 ∧
    (LevelRun.restart runOneMove).2.numMovesChanged = some 0 := by
  refine ⟨rfl, rfl, rfl, rfl, by decide, rfl, rfl, rfl, rfl, rfl⟩

end Kuboble
